import Mathlib

/-!
Verification development for the board/game-state model, the input
reconciliation (premove) state machine, and the engine wrapper of a
desktop chess GUI.

The repository delegates chess rules to an external rules library
(legal move enumeration, move application/undo, check/checkmate/stalemate
and draw detection, serialization).  Those parts are modelled here from
the specification's rules-library contract.  The repository's own modules
(`gui/board_state.py`, `gui/input_handler.py`, `main.py`,
`engine/engine_wrapper.py`) are embedded directly.
-/

set_option maxRecDepth 10000

namespace Chess

/-- Side to move / piece colour (models `chess.WHITE` / `chess.BLACK`). -/
inductive Side where
  | white
  | black
deriving DecidableEq

/-- Opponent of a side. -/
def Side.other : Side → Side
  | .white => .black
  | .black => .white

/-- Modelled from the spec: the piece kinds of the rules library. -/
inductive PieceKind where
  | pawn
  | knight
  | bishop
  | rook
  | queen
  | king
deriving DecidableEq

/-- A piece: kind plus owning side (models `chess.Piece`). -/
structure Piece where
  kind : PieceKind
  color : Side
deriving DecidableEq

/-- Modelled from the spec: "Move: source square, destination square,
optional promotion piece kind. Equality is structural."
Squares are indexed 0..63 with a1 = 0, h8 = 63 (file = sq % 8, rank = sq / 8),
matching the `chess` module's square numbering. -/
structure Move where
  fromSq : Nat
  toSq : Nat
  promotion : Option PieceKind
deriving DecidableEq

/-- Modelled from the spec: "Position: an 8×8 arrangement of optional
(PieceKind, Side) pairs, plus side-to-move, castling rights (4 independent
booleans), en-passant target square (optional), half-move clock (for
50-move rule), full-move number." -/
structure Position where
  pieces : List (Option Piece)
  turn : Side
  castleWK : Bool
  castleWQ : Bool
  castleBK : Bool
  castleBQ : Bool
  epSquare : Option Nat
  halfmoveClock : Nat
  fullmoveNumber : Nat
deriving DecidableEq

/-- Piece occupying a square, if any (models `board.piece_at`). -/
def pieceAt (p : Position) (sq : Nat) : Option Piece :=
  p.pieces.getD sq none

/-- File of a square as an integer (0 = a .. 7 = h). -/
def fileI (sq : Nat) : Int := Int.ofNat (sq % 8)

/-- Rank of a square as an integer (0 = rank 1 .. 7 = rank 8). -/
def rankI (sq : Nat) : Int := Int.ofNat (sq / 8)

/-- Square index from integer file/rank coordinates. -/
def sqOf (f r : Int) : Nat := (r * 8 + f).toNat

/-- Whether integer file/rank coordinates lie on the board. -/
def inBoard (f r : Int) : Bool :=
  decide (0 ≤ f) && decide (f < 8) && decide (0 ≤ r) && decide (r < 8)

/-- Whether a square is empty. -/
def isEmptySq (p : Position) (sq : Nat) : Bool := (pieceAt p sq).isNone

/-- Forward direction of a pawn of the given colour. -/
def pawnDir : Side → Int
  | .white => 1
  | .black => -1

/-- Starting rank (0-indexed) of pawns of the given colour. -/
def pawnStartRank : Side → Int
  | .white => 1
  | .black => 6

/-- Terminal (promotion) rank, 0-indexed, for the given colour. -/
def promoRank : Side → Nat
  | .white => 7
  | .black => 0

/-- Knight move offsets. -/
def knightOffsets : List (Int × Int) :=
  [(1, 2), (2, 1), (2, -1), (1, -2), (-1, -2), (-2, -1), (-2, 1), (-1, 2)]

/-- King move offsets. -/
def kingOffsets : List (Int × Int) :=
  [(1, 0), (1, 1), (0, 1), (-1, 1), (-1, 0), (-1, -1), (0, -1), (1, -1)]

/-- Rook ray directions. -/
def rookDirs : List (Int × Int) := [(1, 0), (-1, 0), (0, 1), (0, -1)]

/-- Bishop ray directions. -/
def bishopDirs : List (Int × Int) := [(1, 1), (1, -1), (-1, 1), (-1, -1)]

/-- Target squares reachable by single-step offsets (knight, king),
excluding squares held by the moving side. -/
def stepTargets (p : Position) (side : Side) (sq : Nat)
    (offs : List (Int × Int)) : List Nat :=
  offs.filterMap fun od =>
    let f := fileI sq + od.1
    let r := rankI sq + od.2
    if inBoard f r then
      let t := sqOf f r
      match pieceAt p t with
      | some pc => if pc.color = side then none else some t
      | none => some t
    else none

/-- Squares along a ray from (f, r) in direction (df, dr): empty squares,
plus the first enemy-occupied square; stops at own pieces and board edge. -/
def rayTargets (p : Position) (side : Side) (f r df dr : Int) :
    Nat → List Nat
  | 0 => []
  | fuel + 1 =>
    let f2 := f + df
    let r2 := r + dr
    if inBoard f2 r2 then
      let t := sqOf f2 r2
      match pieceAt p t with
      | none => t :: rayTargets p side f2 r2 df dr fuel
      | some pc => if pc.color = side then [] else [t]
    else []

/-- Target squares of a sliding piece. -/
def slideTargets (p : Position) (side : Side) (sq : Nat)
    (dirs : List (Int × Int)) : List Nat :=
  dirs.flatMap fun d => rayTargets p side (fileI sq) (rankI sq) d.1 d.2 7

/-- Target squares of a pawn: single push, double push from the start rank,
diagonal captures, and the en-passant target square. -/
def pawnTargets (p : Position) (c : Side) (sq : Nat) : List Nat :=
  let f := fileI sq
  let r := rankI sq
  let d := pawnDir c
  let push1 :=
    if inBoard f (r + d) && isEmptySq p (sqOf f (r + d)) then
      [sqOf f (r + d)]
    else []
  let push2 :=
    if decide (r = pawnStartRank c) && inBoard f (r + d)
        && isEmptySq p (sqOf f (r + d)) && inBoard f (r + 2 * d)
        && isEmptySq p (sqOf f (r + 2 * d)) then
      [sqOf f (r + 2 * d)]
    else []
  let caps := [(-1 : Int), 1].filterMap fun df =>
    let f2 := f + df
    let r2 := r + d
    if inBoard f2 r2 then
      let t := sqOf f2 r2
      match pieceAt p t with
      | some pc => if pc.color = c then none else some t
      | none => if p.epSquare = some t then some t else none
    else none
  push1 ++ push2 ++ caps

/-- Moves built from a source square and a list of target squares. -/
def movesFromTargets (sq : Nat) (ts : List Nat) : List Move :=
  ts.map fun t => ⟨sq, t, none⟩

/-- Promotion piece kinds, in the order the rules library generates them. -/
def promoKinds : List PieceKind := [.queen, .rook, .bishop, .knight]

/-- Pawn moves from a square: each target reaching the terminal rank is
expanded into the four promotion moves; other targets carry no promotion. -/
def pawnMoves (p : Position) (c : Side) (sq : Nat) : List Move :=
  (pawnTargets p c sq).flatMap fun t =>
    if t / 8 = promoRank c then
      promoKinds.map fun k => (⟨sq, t, some k⟩ : Move)
    else [⟨sq, t, none⟩]

/-- Walks from (f, r) in direction (df, dr) until reaching (tf, tr);
true iff every strictly intermediate square is empty. -/
def clearRay (p : Position) (f r df dr tf tr : Int) : Nat → Bool
  | 0 => false
  | fuel + 1 =>
    let f2 := f + df
    let r2 := r + dr
    if f2 == tf && r2 == tr then true
    else if !(inBoard f2 r2) then false
    else if isEmptySq p (sqOf f2 r2) then clearRay p f2 r2 df dr tf tr fuel
    else false

/-- Whether the piece `pc` standing on `sq` attacks `target`. -/
def pieceAttacks (p : Position) (pc : Piece) (sq target : Nat) : Bool :=
  let df := fileI target - fileI sq
  let dr := rankI target - rankI sq
  if df == 0 && dr == 0 then false
  else
    match pc.kind with
    | .pawn => (df == 1 || df == -1) && dr == pawnDir pc.color
    | .knight => df * df + dr * dr == 5
    | .king => decide (df * df ≤ 1) && decide (dr * dr ≤ 1)
    | .bishop =>
      df.natAbs == dr.natAbs
        && clearRay p (fileI sq) (rankI sq) df.sign dr.sign
          (fileI target) (rankI target) 8
    | .rook =>
      (df == 0 || dr == 0)
        && clearRay p (fileI sq) (rankI sq) df.sign dr.sign
          (fileI target) (rankI target) 8
    | .queen =>
      (df == 0 || dr == 0 || df.natAbs == dr.natAbs)
        && clearRay p (fileI sq) (rankI sq) df.sign dr.sign
          (fileI target) (rankI target) 8

/-- Whether any piece of `attacker` attacks `target`. -/
def attacksSq (p : Position) (attacker : Side) (target : Nat) : Bool :=
  (List.range 64).any fun sq =>
    match pieceAt p sq with
    | some pc => decide (pc.color = attacker) && pieceAttacks p pc sq target
    | none => false

/-- Square of the king of the given colour, if present. -/
def kingSquare (p : Position) (c : Side) : Option Nat :=
  (List.range 64).find? fun sq => pieceAt p sq == some ⟨.king, c⟩

/-- Whether the king of side `c` is attacked by the opponent. -/
def inCheckSide (p : Position) (c : Side) : Bool :=
  match kingSquare p c with
  | some k => attacksSq p c.other k
  | none => false

/-- Whether the side to move is in check (models `board.is_check`). -/
def isCheckPos (p : Position) : Bool := inCheckSide p p.turn

/-- Clears the castling rights associated with a square being vacated or
captured on (king origin clears both rights of its side, rook corners
clear one right). -/
def removeCastle (p : Position) (sq : Nat) : Position :=
  let p1 := if sq = 4 then { p with castleWK := false, castleWQ := false } else p
  let p2 := if sq = 0 then { p1 with castleWQ := false } else p1
  let p3 := if sq = 7 then { p2 with castleWK := false } else p2
  let p4 := if sq = 60 then { p3 with castleBK := false, castleBQ := false } else p3
  let p5 := if sq = 56 then { p4 with castleBQ := false } else p4
  if sq = 63 then { p5 with castleBK := false } else p5

/-- Writes an optional piece to a square. -/
def setSq (p : Position) (sq : Nat) (v : Option Piece) : Position :=
  { p with pieces := p.pieces.set sq v }

/-- Modelled from the spec: move application of the rules library
(`board.push`).  Handles capture, en passant, castling (rook relocation),
promotion, castling-rights bookkeeping, the en-passant target square, the
half-move clock and the full-move number, then flips the turn. -/
def applyMove (p : Position) (m : Move) : Position :=
  match pieceAt p m.fromSq with
  | none => { p with turn := p.turn.other }
  | some pc =>
    let c := pc.color
    let isCapture := (pieceAt p m.toSq).isSome
    let isPawn := pc.kind = PieceKind.pawn
    let isEp := decide isPawn && p.epSquare == some m.toSq
      && fileI m.toSq != fileI m.fromSq && !isCapture
    let placed : Piece :=
      match m.promotion with
      | some k => ⟨k, c⟩
      | none => pc
    let p1 := setSq p m.fromSq none
    let p2 :=
      if isEp then setSq p1 (sqOf (fileI m.toSq) (rankI m.fromSq)) none else p1
    let p3 := setSq p2 m.toSq (some placed)
    let r := rankI m.fromSq
    let p4 :=
      if pc.kind = PieceKind.king ∧ fileI m.fromSq = 4 ∧ fileI m.toSq = 6 then
        setSq (setSq p3 (sqOf 7 r) none) (sqOf 5 r) (some ⟨.rook, c⟩)
      else if pc.kind = PieceKind.king ∧ fileI m.fromSq = 4 ∧ fileI m.toSq = 2 then
        setSq (setSq p3 (sqOf 0 r) none) (sqOf 3 r) (some ⟨.rook, c⟩)
      else p3
    let p5 := removeCastle (removeCastle p4 m.fromSq) m.toSq
    let newEp :=
      if isPawn ∧ (rankI m.toSq - rankI m.fromSq).natAbs = 2 then
        some (sqOf (fileI m.fromSq) ((rankI m.fromSq + rankI m.toSq) / 2))
      else none
    let newClock :=
      if isPawn ∨ isCapture ∨ isEp = true then 0 else p.halfmoveClock + 1
    let newFull :=
      if p.turn = Side.black then p.fullmoveNumber + 1 else p.fullmoveNumber
    { p5 with
        turn := p.turn.other
        epSquare := newEp
        halfmoveClock := newClock
        fullmoveNumber := newFull }

/-- Castling moves available to the king of colour `c` standing on `sq`:
requires the right, empty path, the rook in its corner, and that the king
does not start from or pass through an attacked square. -/
def castleMoves (p : Position) (c : Side) (sq : Nat) : List Move :=
  let r : Int := match c with | .white => 0 | .black => 7
  let e := sqOf 4 r
  if sq ≠ e then []
  else
    let enemy := c.other
    let kRight := match c with | .white => p.castleWK | .black => p.castleBK
    let qRight := match c with | .white => p.castleWQ | .black => p.castleBQ
    let kingside :=
      if kRight && isEmptySq p (sqOf 5 r) && isEmptySq p (sqOf 6 r)
          && pieceAt p (sqOf 7 r) == some ⟨.rook, c⟩
          && !attacksSq p enemy e && !attacksSq p enemy (sqOf 5 r)
          && !attacksSq p enemy (sqOf 6 r) then
        [(⟨e, sqOf 6 r, none⟩ : Move)]
      else []
    let queenside :=
      if qRight && isEmptySq p (sqOf 3 r) && isEmptySq p (sqOf 2 r)
          && isEmptySq p (sqOf 1 r)
          && pieceAt p (sqOf 0 r) == some ⟨.rook, c⟩
          && !attacksSq p enemy e && !attacksSq p enemy (sqOf 3 r)
          && !attacksSq p enemy (sqOf 2 r) then
        [(⟨e, sqOf 2 r, none⟩ : Move)]
      else []
    kingside ++ queenside

/-- Pseudo-legal moves of the piece `pc` standing on `sq`. -/
def pieceMoves (p : Position) (pc : Piece) (sq : Nat) : List Move :=
  match pc.kind with
  | .pawn => pawnMoves p pc.color sq
  | .knight => movesFromTargets sq (stepTargets p pc.color sq knightOffsets)
  | .bishop => movesFromTargets sq (slideTargets p pc.color sq bishopDirs)
  | .rook => movesFromTargets sq (slideTargets p pc.color sq rookDirs)
  | .queen =>
    movesFromTargets sq (slideTargets p pc.color sq (rookDirs ++ bishopDirs))
  | .king =>
    movesFromTargets sq (stepTargets p pc.color sq kingOffsets)
      ++ castleMoves p pc.color sq

/-- All pseudo-legal moves of the side to move. -/
def pseudoMoves (p : Position) : List Move :=
  (List.range 64).flatMap fun sq =>
    match pieceAt p sq with
    | some pc => if pc.color = p.turn then pieceMoves p pc sq else []
    | none => []

/-- Modelled from the spec: legal move enumeration of the rules library
(`board.legal_moves`): pseudo-legal moves whose application does not leave
the mover's king attacked. -/
def legalMovesList (p : Position) : List Move :=
  (pseudoMoves p).filter fun m => !inCheckSide (applyMove p m) p.turn

/-- Membership test in the legal move list (models `move in board.legal_moves`). -/
def isLegalMoveB (p : Position) (m : Move) : Bool :=
  decide (m ∈ legalMovesList p)

/-- Back rank piece arrangement for one side. -/
def backRank (c : Side) : List (Option Piece) :=
  [some ⟨.rook, c⟩, some ⟨.knight, c⟩, some ⟨.bishop, c⟩, some ⟨.queen, c⟩,
   some ⟨.king, c⟩, some ⟨.bishop, c⟩, some ⟨.knight, c⟩, some ⟨.rook, c⟩]

/-- A rank of eight pawns of one side. -/
def pawnRank (c : Side) : List (Option Piece) :=
  List.replicate 8 (some ⟨.pawn, c⟩)

/-- An empty rank. -/
def emptyRank : List (Option Piece) := List.replicate 8 none

/-- The standard chess starting position. -/
def startPos : Position :=
  { pieces :=
      backRank .white ++ pawnRank .white ++ emptyRank ++ emptyRank
        ++ emptyRank ++ emptyRank ++ pawnRank .black ++ backRank .black
    turn := .white
    castleWK := true
    castleWQ := true
    castleBK := true
    castleBQ := true
    epSquare := none
    halfmoveClock := 0
    fullmoveNumber := 1 }

/-- FEN character of a piece. -/
def pieceChar : Piece → Char
  | ⟨.pawn, .white⟩ => 'P'
  | ⟨.knight, .white⟩ => 'N'
  | ⟨.bishop, .white⟩ => 'B'
  | ⟨.rook, .white⟩ => 'R'
  | ⟨.queen, .white⟩ => 'Q'
  | ⟨.king, .white⟩ => 'K'
  | ⟨.pawn, .black⟩ => 'p'
  | ⟨.knight, .black⟩ => 'n'
  | ⟨.bishop, .black⟩ => 'b'
  | ⟨.rook, .black⟩ => 'r'
  | ⟨.queen, .black⟩ => 'q'
  | ⟨.king, .black⟩ => 'k'

/-- Decimal digit character (for FEN empty-square runs, 1..8). -/
def digitChar (n : Nat) : Char := Char.ofNat (48 + n)

/-- Algebraic name of a square, e.g. square 28 is "e4"
(models `chess.square_name`). -/
def squareName (sq : Nat) : String :=
  String.mk [Char.ofNat (97 + sq % 8), Char.ofNat (49 + sq / 8)]

/-- One rank of the FEN piece-placement field, with empty-run compression. -/
def rowFen (p : Position) (r : Nat) : List Char :=
  let step := fun (acc : List Char × Nat) (f : Nat) =>
    match pieceAt p (r * 8 + f) with
    | some pc =>
      (acc.1 ++ (if acc.2 = 0 then [] else [digitChar acc.2]) ++ [pieceChar pc], 0)
    | none => (acc.1, acc.2 + 1)
  let res := (List.range 8).foldl step ([], 0)
  res.1 ++ (if res.2 = 0 then [] else [digitChar res.2])

/-- The piece-placement field of the FEN, ranks 8 down to 1. -/
def fenBoard (p : Position) : String :=
  String.intercalate "/" (((List.range 8).reverse).map fun r => String.mk (rowFen p r))

/-- The castling field of the FEN. -/
def castleStr (p : Position) : String :=
  let s := (if p.castleWK then "K" else "") ++ (if p.castleWQ then "Q" else "")
    ++ (if p.castleBK then "k" else "") ++ (if p.castleBQ then "q" else "")
  if s = "" then "-" else s

/-- The en-passant field of the FEN. -/
def epStr (p : Position) : String :=
  match p.epSquare with
  | some sq => squareName sq
  | none => "-"

/-- Modelled from the spec: complete FEN serialization of the rules library
(`board.fen()`): piece placement, side to move, castling rights, en-passant
target, half-move clock and full-move number. -/
def fen (p : Position) : String :=
  fenBoard p ++ (if p.turn = Side.white then " w " else " b ") ++ castleStr p
    ++ " " ++ epStr p ++ " " ++ toString p.halfmoveClock ++ " "
    ++ toString p.fullmoveNumber

/-- SAN letter of a piece kind (empty for pawns). -/
def pieceLetter : PieceKind → String
  | .pawn => ""
  | .knight => "N"
  | .bishop => "B"
  | .rook => "R"
  | .queen => "Q"
  | .king => "K"

/-- Lower-case UCI letter of a promotion piece kind. -/
def promoChar : PieceKind → String
  | .pawn => "p"
  | .knight => "n"
  | .bishop => "b"
  | .rook => "r"
  | .queen => "q"
  | .king => "k"

/-- UCI form of a move, e.g. "e2e4", "e7e8q" (models `move.uci()`). -/
def uciOfMove (m : Move) : String :=
  squareName m.fromSq ++ squareName m.toSq
    ++ (match m.promotion with | some k => promoChar k | none => "")

/-- Modelled from the spec: SAN serialization of the rules library
(`board.san(move)`): piece letter, disambiguation, capture mark,
destination, promotion suffix, castling as O-O / O-O-O, and a check or
mate suffix; "display-form must be computed at application time", i.e.
it depends on the position before the move. -/
def sanOfMove (p : Position) (m : Move) : String :=
  match pieceAt p m.fromSq with
  | none => uciOfMove m
  | some pc =>
    let isCapture := (pieceAt p m.toSq).isSome
      || (decide (pc.kind = PieceKind.pawn) && p.epSquare == some m.toSq
            && fileI m.toSq != fileI m.fromSq)
    let fileCh := String.mk [Char.ofNat (97 + m.fromSq % 8)]
    let rankCh := String.mk [Char.ofNat (49 + m.fromSq / 8)]
    let base :=
      if pc.kind = PieceKind.king ∧ fileI m.fromSq = 4 ∧ fileI m.toSq = 6 then
        "O-O"
      else if pc.kind = PieceKind.king ∧ fileI m.fromSq = 4 ∧ fileI m.toSq = 2 then
        "O-O-O"
      else
        let disamb :=
          if pc.kind = PieceKind.pawn then (if isCapture then fileCh else "")
          else
            let others := (legalMovesList p).filter fun m2 =>
              m2.toSq == m.toSq && m2.fromSq != m.fromSq
                && ((pieceAt p m2.fromSq).map Piece.kind == some pc.kind)
            if others.isEmpty then ""
            else if others.all (fun m2 => fileI m2.fromSq != fileI m.fromSq) then
              fileCh
            else if others.all (fun m2 => rankI m2.fromSq != rankI m.fromSq) then
              rankCh
            else squareName m.fromSq
        pieceLetter pc.kind ++ disamb ++ (if isCapture then "x" else "")
          ++ squareName m.toSq
          ++ (match m.promotion with
              | some k => "=" ++ pieceLetter k
              | none => "")
    let p2 := applyMove p m
    base ++ (if isCheckPos p2 then
               (if (legalMovesList p2).isEmpty then "#" else "+")
             else "")

/-- Modelled from the spec: the rules library's board object
(`chess.Board`).  `push` records a full snapshot of the position before
mutating it, and `pop` restores the most recent snapshot; the stack is
kept newest-first. -/
structure Board where
  pos : Position
  stack : List (Position × Move)
deriving DecidableEq

/-- Apply a move unconditionally, snapshotting the previous position
(models `board.push`). -/
def Board.push (b : Board) (m : Move) : Board :=
  { pos := applyMove b.pos m, stack := (b.pos, m) :: b.stack }

/-- Revert the most recent move by restoring its snapshot
(models `board.pop`; the empty-stack case is guarded by callers). -/
def Board.pop (b : Board) : Option Move × Board :=
  match b.stack with
  | [] => (none, b)
  | (p, m) :: rest => (some m, { pos := p, stack := rest })

/-- Moves applied so far, oldest first (models `board.move_stack`). -/
def Board.moveStack (b : Board) : List Move :=
  (b.stack.map Prod.snd).reverse

/-- Most recent move (models `board.peek()`). -/
def Board.peek (b : Board) : Option Move :=
  b.stack.head?.map Prod.snd

/-- Whether the side to move is in check (models `board.is_check()`). -/
def Board.is_check (b : Board) : Bool := isCheckPos b.pos

/-- Checkmate: in check with no legal moves (models `board.is_checkmate()`). -/
def Board.is_checkmate (b : Board) : Bool :=
  isCheckPos b.pos && (legalMovesList b.pos).isEmpty

/-- Stalemate: not in check and no legal moves (models `board.is_stalemate()`). -/
def Board.is_stalemate (b : Board) : Bool :=
  !isCheckPos b.pos && (legalMovesList b.pos).isEmpty

/-- Number of pieces on the board satisfying a predicate on square and piece. -/
def countSq (p : Position) (f : Nat → Piece → Bool) : Nat :=
  ((List.range 64).filter fun sq =>
    match pieceAt p sq with
    | some pc => f sq pc
    | none => false).length

/-- Modelled from the spec: the rules library's per-side insufficient
material test (`board.has_insufficient_material(color)`): no pawn, rook or
queen; with a knight, at most two pieces in total and no opposing pieces
other than king and queens; with bishops, all bishops on one square colour
and no pawns or knights on the board. -/
def hasInsufficientMaterial (p : Position) (c : Side) : Bool :=
  let mineKind := fun (k : PieceKind) =>
    countSq p fun _ pc => decide (pc.color = c) && decide (pc.kind = k)
  let mineTotal := countSq p fun _ pc => decide (pc.color = c)
  if mineKind .pawn ≠ 0 ∨ mineKind .rook ≠ 0 ∨ mineKind .queen ≠ 0 then false
  else if mineKind .knight ≠ 0 then
    decide (mineTotal ≤ 2)
      && decide ((countSq p fun _ pc =>
            decide (pc.color ≠ c) && decide (pc.kind ≠ PieceKind.king)
              && decide (pc.kind ≠ PieceKind.queen)) = 0)
  else if mineKind .bishop ≠ 0 then
    let dark := countSq p fun sq pc =>
      decide (pc.kind = PieceKind.bishop) && decide ((sq % 8 + sq / 8) % 2 = 0)
    let light := countSq p fun sq pc =>
      decide (pc.kind = PieceKind.bishop) && decide ((sq % 8 + sq / 8) % 2 = 1)
    (decide (dark = 0) || decide (light = 0))
      && decide ((countSq p fun _ pc => decide (pc.kind = PieceKind.pawn)) = 0)
      && decide ((countSq p fun _ pc => decide (pc.kind = PieceKind.knight)) = 0)
  else true

/-- Neither side has mating material (models `board.is_insufficient_material()`). -/
def Board.is_insufficient_material (b : Board) : Bool :=
  hasInsufficientMaterial b.pos .white && hasInsufficientMaterial b.pos .black

/-- Modelled from the spec: "fifty-move-claimable" — the half-move clock
has reached 100 plies with the game not already over. -/
def Board.can_claim_fifty_moves (b : Board) : Bool :=
  decide (100 ≤ b.pos.halfmoveClock) && !(legalMovesList b.pos).isEmpty

/-- Transposition key of a position: piece placement, side to move,
castling rights and en-passant target. -/
def transKey (p : Position) :
    List (Option Piece) × Side × (Bool × Bool × Bool × Bool) × Option Nat :=
  (p.pieces, p.turn, (p.castleWK, p.castleWQ, p.castleBK, p.castleBQ), p.epSquare)

/-- Modelled from the spec: "threefold-repetition-claimable" — the current
transposition key has occurred at least three times in the game so far. -/
def Board.can_claim_threefold_repetition (b : Board) : Bool :=
  let keys := transKey b.pos :: b.stack.map fun pm => transKey pm.1
  decide (3 ≤ (keys.filter fun k => decide (k = transKey b.pos)).length)

/-- Whether the game is over by any means (models `board.is_game_over()`). -/
def Board.is_game_over (b : Board) : Bool :=
  b.is_checkmate || b.is_stalemate || b.is_insufficient_material
    || b.can_claim_fifty_moves || b.can_claim_threefold_repetition

/-- Embeds `BoardState` (src/gui/board_state.py): the wrapped rules-library
board plus the two move-history lists (UCI for engines, SAN for display). -/
structure BoardState where
  board : Board
  move_history_uci : List String
  move_history_san : List String
deriving DecidableEq

/-- A fresh `BoardState()` at the standard starting position. -/
def BoardState.initial : BoardState := ⟨⟨startPos, []⟩, [], []⟩

/-- Embeds `BoardState.get_fen`. -/
def BoardState.get_fen (s : BoardState) : String := fen s.board.pos

/-- Embeds `BoardState.get_legal_moves`. -/
def BoardState.get_legal_moves (s : BoardState) : List Move :=
  legalMovesList s.board.pos

/-- Embeds `BoardState.get_legal_moves_from_square`. -/
def BoardState.get_legal_moves_from_square (s : BoardState) (square : Nat) :
    List Move :=
  (legalMovesList s.board.pos).filter fun m => m.fromSq == square

/-- Embeds `BoardState.get_legal_destinations_from_square`. -/
def BoardState.get_legal_destinations_from_square (s : BoardState)
    (square : Nat) : List Nat :=
  (s.get_legal_moves_from_square square).map fun m => m.toSq

/-- Embeds `BoardState.is_legal_move`. -/
def BoardState.is_legal_move (s : BoardState) (m : Move) : Bool :=
  isLegalMoveB s.board.pos m

/-- Embeds `BoardState.make_move`: rejects a move not in the legal move
list leaving the state untouched; otherwise computes SAN before mutating,
pushes the move, and appends to both history lists. -/
def BoardState.make_move (s : BoardState) (m : Move) : Bool × BoardState :=
  if isLegalMoveB s.board.pos m then
    let san := sanOfMove s.board.pos m
    (true,
      { board := s.board.push m
        move_history_uci := s.move_history_uci ++ [uciOfMove m]
        move_history_san := s.move_history_san ++ [san] })
  else (false, s)

/-- Embeds `BoardState.undo_move`: no-op when the move stack is empty;
otherwise pops the board and removes the last entry of each non-empty
history list. -/
def BoardState.undo_move (s : BoardState) : Option Move × BoardState :=
  match s.board.stack with
  | [] => (none, s)
  | _ :: _ =>
    let pr := s.board.pop
    let hu := if s.move_history_uci.isEmpty then s.move_history_uci
              else s.move_history_uci.dropLast
    let hs := if s.move_history_san.isEmpty then s.move_history_san
              else s.move_history_san.dropLast
    (pr.1, { board := pr.2, move_history_uci := hu, move_history_san := hs })

/-- Embeds `BoardState.is_promotion_move`: the piece on `from_sq` is a pawn
and `to_sq` lies on rank 8 for a white pawn or rank 1 for a black pawn. -/
def BoardState.is_promotion_move (s : BoardState) (from_sq to_sq : Nat) : Bool :=
  match pieceAt s.board.pos from_sq with
  | none => false
  | some pc =>
    if pc.kind ≠ PieceKind.pawn then false
    else
      (decide (pc.color = Side.white) && decide (to_sq / 8 = 7))
        || (decide (pc.color = Side.black) && decide (to_sq / 8 = 0))

/-- Embeds the `turn` helpers of `BoardState`. -/
def BoardState.is_white_turn (s : BoardState) : Bool :=
  decide (s.board.pos.turn = Side.white)

/-- Embeds `BoardState.get_turn_string`. -/
def BoardState.get_turn_string (s : BoardState) : String :=
  if s.is_white_turn then "White" else "Black"

/-- Embeds `BoardState.get_game_status`: the if/elif chain reporting, in
this order, checkmate, stalemate, insufficient material, the 50-move rule,
threefold repetition, check, or the side to move. -/
def BoardState.get_game_status (s : BoardState) : String :=
  if s.board.is_checkmate then
    "Checkmate! " ++ (if s.is_white_turn then "Black" else "White") ++ " wins"
  else if s.board.is_stalemate then "Stalemate - Draw"
  else if s.board.is_insufficient_material then "Draw - Insufficient material"
  else if s.board.can_claim_fifty_moves then "Draw claimable - 50 move rule"
  else if s.board.can_claim_threefold_repetition then
    "Draw claimable - Threefold repetition"
  else if s.board.is_check then s.get_turn_string ++ " is in check"
  else s.get_turn_string ++ " to move"

/-- Embeds `BoardState.get_game_result`: None while the game is ongoing,
else "1-0" / "0-1" on checkmate and "1/2-1/2" for every other ending. -/
def BoardState.get_game_result (s : BoardState) : Option String :=
  if !s.board.is_game_over then none
  else if s.board.is_checkmate then
    some (if s.is_white_turn then "0-1" else "1-0")
  else some "1/2-1/2"

/-- Embeds `check_game_end_conditions` (src/main.py): the if-chain
returning `(is_game_over, result_type, winner, reason)` testing, in this
order, checkmate, stalemate, insufficient material, the fifty-move rule
and threefold repetition. -/
def check_game_end_conditions (board_state : BoardState) :
    Bool × Option String × Option String × Option String :=
  let board := board_state.board
  if board.is_checkmate then
    (true, some "checkmate",
      some (if board.pos.turn = Side.black then "White" else "Black"), some "")
  else if board.is_stalemate then (true, some "stalemate", none, some "")
  else if board.is_insufficient_material then
    (true, some "draw", none, some "insufficient material")
  else if board.can_claim_fifty_moves then
    (true, some "draw", none, some "50-move rule")
  else if board.can_claim_threefold_repetition then
    (true, some "draw", none, some "threefold repetition")
  else (false, none, none, none)

/-- Embeds the state of `InputHandler` (src/gui/input_handler.py):
selection, drag, premove queue, and the shared `BoardState` reference.
The human's colour (`Config.HUMAN_COLOR`) is passed to the operations as
a parameter. -/
structure InputHandler where
  board_state : BoardState
  selected_square : Option Nat
  selected_piece : Option Piece
  legal_moves_from_selected : List Move
  dragging : Bool
  drag_piece : Option Piece
  drag_start_square : Option Nat
  drag_pos : Option (Int × Int)
  drag_start_pos : Option (Int × Int)
  mouse_moved : Bool
  last_move_method : Option String
  premove_queue : List Move
  virtual_board : Option Board
  is_premove_mode : Bool
deriving DecidableEq

/-- A fresh `InputHandler` over a board state. -/
def InputHandler.init (bs : BoardState) : InputHandler :=
  ⟨bs, none, none, [], false, none, none, none, none, false, none, [], none, false⟩

/-- Embeds `InputHandler._deselect`. -/
def InputHandler.deselect (ih : InputHandler) : InputHandler :=
  { ih with
      selected_square := none
      selected_piece := none
      legal_moves_from_selected := []
      is_premove_mode := false }

/-- Embeds `InputHandler._clear_premove`. -/
def InputHandler.clear_premove (ih : InputHandler) : InputHandler :=
  { ih with premove_queue := [], virtual_board := none, is_premove_mode := false }

/-- Modelled from the spec: the rules library's `board.push` fails (raises
an assertion error) when the source square of the move is empty — "push()
expects move to be pseudo-legal"; modelled as failing without mutating. -/
def Board.pushChecked (b : Board) (m : Move) : Option Board :=
  match pieceAt b.pos m.fromSq with
  | none => none
  | some _ => some (b.push m)

/-- The fold of `InputHandler.build_visual_board`: the turn is forced to
the human's side before each push; a push that raises is caught
(`try/except: break`), stopping the rebuild at the first failing queued
move — the turn had already been forced when the push failed, and later
queued moves are not applied. -/
def buildVisualBoardAux (human : Side) : Board → List Move → Board
  | b, [] => b
  | b, m :: rest =>
    let bT : Board := { b with pos := { b.pos with turn := human } }
    match bT.pushChecked m with
    | some b2 => buildVisualBoardAux human b2 rest
    | none => bT

/-- Embeds `InputHandler.build_visual_board`: a copy of the real board with
the queued premoves applied in order (turn forced to the human's side
before each), truncated at the first queued move that can no longer be
pushed. -/
def buildVisualBoard (human : Side) (bs : BoardState) (queue : List Move) :
    Board :=
  buildVisualBoardAux human bs.board queue

/-- The fold of `InputHandler._get_premove_logic_board`: the same pushes,
but with no `try/except` — a failing push raises out of the method
(modelled as `none`); on success the turn is forced to the human's side
once more at the end. -/
def premoveLogicBoardAux (human : Side) : Board → List Move → Option Board
  | b, [] => some { b with pos := { b.pos with turn := human } }
  | b, m :: rest =>
    match Board.pushChecked { b with pos := { b.pos with turn := human } } m with
    | some b2 => premoveLogicBoardAux human b2 rest
    | none => none

/-- Embeds `InputHandler._get_premove_logic_board`: the real board with
every queued premove applied (turn forced to the human's side before each
and once more at the end); `none` models the uncaught exception raised by
a stale queued move. -/
def premoveLogicBoard (human : Side) (bs : BoardState) (queue : List Move) :
    Option Board :=
  premoveLogicBoardAux human bs.board queue

/-- Modelled from the spec's words for C2 (reference definition, to be
compared with the code's builders): the full projected position — "copying
the real position, applying all earlier queued moves in order with the
turn forced to the human's side before each, and forcing the turn to the
human's side" — with move application total, i.e. every queued move
applied. -/
def specProjectedBoard (human : Side) (bs : BoardState) (queue : List Move) :
    Board :=
  let b := queue.foldl
    (fun b m => Board.push { b with pos := { b.pos with turn := human } } m)
    bs.board
  { b with pos := { b.pos with turn := human } }

/-- Whether the square holds a piece of the given colour on a board. -/
def ownPieceAt (b : Board) (sq : Nat) (c : Side) : Bool :=
  match pieceAt b.pos sq with
  | some pc => pc.color == c
  | none => false

/-- The promotion test of the premove entry paths: the tracked piece is a
pawn and the target square lies on its terminal rank. -/
def pawnPromoTarget (fp? : Option Piece) (square : Nat) : Bool :=
  match fp? with
  | some fp =>
    decide (fp.kind = PieceKind.pawn)
      && ((decide (fp.color = Side.white) && decide (square / 8 = 7))
          || (decide (fp.color = Side.black) && decide (square / 8 = 0)))
  | none => false

/-- Embeds the selection phase of `InputHandler._handle_premove_click`:
pick the piece from the visual board, require it to be the human's, and
cache the legal moves of the projected position with the turn forced to
the human's side. -/
def InputHandler.premove_select (human : Side) (ih : InputHandler)
    (square : Nat) : Bool × InputHandler :=
  let vb := buildVisualBoard human ih.board_state ih.premove_queue
  match pieceAt vb.pos square with
  | none => (false, ih)
  | some piece =>
    if piece.color ≠ human then (false, ih)
    else
      let vbT := { vb.pos with turn := human }
      (false,
        { ih with
            selected_square := some square
            selected_piece := some piece
            is_premove_mode := true
            legal_moves_from_selected :=
              (legalMovesList vbT).filter fun m => m.fromSq == square })

/-- Embeds `InputHandler._handle_premove_click`.  The synchronous
promotion dialog is modelled by the `promoChoice` argument (`none` models
a cancelled dialog). -/
def InputHandler.handle_premove_click (human : Side) (ih : InputHandler)
    (square : Nat) (promoChoice : Option PieceKind) : Bool × InputHandler :=
  let vb := buildVisualBoard human ih.board_state ih.premove_queue
  match ih.selected_square with
  | none => ih.premove_select human square
  | some selSq =>
    if ownPieceAt vb square human then
      -- second click on an own piece of the visual board: reselect
      InputHandler.premove_select human ih.deselect square
    else
      -- queue the move, checking legality on the visual board
      let promoRes : Option (Option PieceKind) :=
        if pawnPromoTarget ih.selected_piece square then
          match promoChoice with
          | none => none
          | some k => some (some k)
        else some none
      match promoRes with
      | none => (false, ih.deselect)
      | some promotion =>
        let move : Move := ⟨selSq, square, promotion⟩
        let vbT := { vb.pos with turn := human }
        if !isLegalMoveB vbT move then (false, ih.deselect)
        else
          (false,
            { ih.deselect with premove_queue := ih.premove_queue ++ [move] })

/-- Embeds `InputHandler._is_promotion_move` (on the real board). -/
def InputHandler.is_promotion_move (ih : InputHandler) (m : Move) : Bool :=
  match pieceAt ih.board_state.board.pos m.fromSq with
  | none => false
  | some piece =>
    if piece.kind ≠ PieceKind.pawn then false
    else if piece.color = Side.white then decide (m.toSq / 8 = 7)
    else decide (m.toSq / 8 = 0)

/-- Embeds `InputHandler._try_make_move`: construct the candidate from the
selected square, resolve promotion through the dialog (`promoChoice`),
validate against the real board's legal moves, and on success delegate to
`BoardState.make_move`; on failure clear the selection. -/
def InputHandler.try_make_move (ih : InputHandler) (to_square : Nat)
    (promoChoice : Option PieceKind) : Bool × InputHandler :=
  match ih.selected_square with
  | none => (false, ih)
  | some selSq =>
    let move0 : Move := ⟨selSq, to_square, none⟩
    let moveRes : Option Move :=
      if ih.is_promotion_move move0 then
        match promoChoice with
        | none => none
        | some k => some ⟨selSq, to_square, some k⟩
      else some move0
    match moveRes with
    | none => (false, ih.deselect)
    | some move =>
      if !isLegalMoveB ih.board_state.board.pos move then (false, ih.deselect)
      else
        let res := ih.board_state.make_move move
        if res.1 then (true, { ih.deselect with board_state := res.2 })
        else (false, { ih.deselect with board_state := res.2 })

/-- Embeds `InputHandler.execute_next_premove_if_valid`: with a non-empty
queue, re-validate the head against the real position; on success apply it
through `BoardState.make_move`, pop only the head and clear the selection;
otherwise clear the whole queue and the selection. -/
def InputHandler.execute_next_premove_if_valid (ih : InputHandler) :
    Bool × InputHandler :=
  match ih.premove_queue with
  | [] => (false, ih)
  | move :: rest =>
    if isLegalMoveB ih.board_state.board.pos move then
      let ih1 := { ih with last_move_method := some "click" }
      let res := ih1.board_state.make_move move
      if res.1 then
        let ih2 := { ih1 with board_state := res.2, premove_queue := rest }
        let ih3 := if rest.isEmpty then { ih2 with virtual_board := none } else ih2
        (true, ih3.deselect)
      else
        (false,
          { ih1.deselect with
              board_state := res.2, premove_queue := [], virtual_board := none })
    else
      (false,
        { ih.deselect with premove_queue := [], virtual_board := none })

/-- Embeds `InputHandler.has_premove`. -/
def InputHandler.has_premove (ih : InputHandler) : Bool :=
  decide (0 < ih.premove_queue.length)

/-- Embeds `InputHandler.handle_mouse_up`.  `to_square?` is the drop
square (`none` when outside the board); the promotion dialog of the
premove drag branch is modelled by `promoChoice`.  The result is `none`
when `_get_premove_logic_board` raises on a stale queued move, which
propagates out of the method uncaught. -/
def InputHandler.handle_mouse_up (human : Side) (premoveEnabled : Bool)
    (ih : InputHandler) (to_square? : Option Nat) (engine_thinking : Bool)
    (promoChoice : Option PieceKind) : Option (Bool × InputHandler) :=
  if !ih.dragging then
    some (false,
      { ih with
          drag_start_square := none
          drag_piece := none
          drag_start_pos := none
          mouse_moved := false })
  else
    let ih0 := { ih with dragging := false, drag_pos := none, mouse_moved := false }
    let clearDrag := fun (x : InputHandler) =>
      { x with drag_piece := none, drag_start_square := none, drag_start_pos := none }
    match to_square?, ih0.drag_start_square with
    | none, _ => some (false, clearDrag ih0 |>.deselect)
    | some _, none => some (false, clearDrag ih0 |>.deselect)
    | some to_square, some ds =>
      if to_square = ds then some (false, clearDrag ih0)
      else if engine_thinking && premoveEnabled then
        match premoveLogicBoard human ih0.board_state ih0.premove_queue with
        | none => none
        | some logic =>
          if !ownPieceAt logic ds human then some (false, clearDrag ih0.deselect)
          else
            let fp? := pieceAt logic.pos ds
            let promoRes : Option (Option PieceKind) :=
              if pawnPromoTarget fp? to_square then
                match promoChoice with
                | none => none
                | some k => some (some k)
              else some none
            match promoRes with
            | none => some (false, clearDrag ih0.deselect)
            | some promotion =>
              let move : Move := ⟨ds, to_square, promotion⟩
              if !isLegalMoveB logic.pos move then
                some (false, clearDrag ih0.deselect)
              else
                some (true,
                  { clearDrag ih0.deselect with
                      premove_queue := ih0.premove_queue ++ [move] })
      else
        let ih1 := { ih0 with last_move_method := some "drag" }
        let res := ih1.try_make_move to_square promoChoice
        some (res.1, clearDrag res.2)

/-- Embeds `InputHandler.soft_reset`: clears drag state, selection and the
move-method tracking, preserving the premove queue. -/
def InputHandler.soft_reset (ih : InputHandler) : InputHandler :=
  { ih.deselect with
      dragging := false
      drag_piece := none
      drag_start_square := none
      drag_pos := none
      drag_start_pos := none
      mouse_moved := false
      last_move_method := none }

/-- Embeds `InputHandler._handle_selection`: select an own piece of the
side to move and cache its legal moves from the real position. -/
def InputHandler.handle_selection (ih : InputHandler) (square : Nat)
    (piece : Option Piece) : Bool × InputHandler :=
  match piece with
  | none => (false, ih)
  | some pc =>
    if pc.color ≠ ih.board_state.board.pos.turn then (false, ih)
    else
      (false,
        { ih with
            selected_square := some square
            selected_piece := some pc
            is_premove_mode := false
            legal_moves_from_selected :=
              (legalMovesList ih.board_state.board.pos).filter
                fun m => m.fromSq == square })

/-- Embeds `InputHandler._handle_move_or_reselect`: same square deselects,
an own piece reselects, anything else attempts the move. -/
def InputHandler.handle_move_or_reselect (ih : InputHandler) (square : Nat)
    (piece : Option Piece) (promoChoice : Option PieceKind) :
    Bool × InputHandler :=
  if ih.selected_square = some square then (false, ih.deselect)
  else
    let isOwn :=
      match piece with
      | some pc => pc.color == ih.board_state.board.pos.turn
      | none => false
    if isOwn then InputHandler.handle_selection ih.deselect square piece
    else
      let ih1 := { ih with last_move_method := some "click" }
      ih1.try_make_move square promoChoice

/-- Embeds `InputHandler.handle_mouse_click`: a click outside the board
clears selection and premove state; with premove enabled while the engine
is thinking the click is routed to `_handle_premove_click`; otherwise to
selection or move completion. -/
def InputHandler.handle_mouse_click (human : Side) (ih : InputHandler)
    (square? : Option Nat) (engine_thinking premoveEnabled : Bool)
    (promoChoice : Option PieceKind) : Bool × InputHandler :=
  match square? with
  | none => (false, (ih.deselect).clear_premove)
  | some square =>
    let piece := pieceAt ih.board_state.board.pos square
    if premoveEnabled && engine_thinking then
      ih.handle_premove_click human square promoChoice
    else
      match ih.selected_square with
      | none => ih.handle_selection square piece
      | some _ => ih.handle_move_or_reselect square piece promoChoice

/-- Embeds main.py's engine-move handling around lines 1030-1130: the
engine's move is applied to the shared `BoardState` and the input handler
is soft-reset (selection cleared, premove queue preserved); the premove
drain is invoked separately afterwards. -/
def applyEngineMove (ih : InputHandler) (m : Move) : InputHandler :=
  ({ ih with board_state := (ih.board_state.make_move m).2 }).soft_reset

/-- File index encoded by a UCI file character a..h. -/
def charFile (c : Char) : Option Nat :=
  if 97 ≤ c.toNat ∧ c.toNat ≤ 104 then some (c.toNat - 97) else none

/-- Rank index encoded by a UCI rank character 1..8. -/
def charRank (c : Char) : Option Nat :=
  if 49 ≤ c.toNat ∧ c.toNat ≤ 56 then some (c.toNat - 49) else none

/-- Promotion piece kind encoded by a UCI promotion character. -/
def charPromo (c : Char) : Option PieceKind :=
  if c = 'q' then some .queen
  else if c = 'r' then some .rook
  else if c = 'b' then some .bishop
  else if c = 'n' then some .knight
  else if c = 'k' then some .king
  else if c = 'p' then some .pawn
  else none

/-- Modelled from the spec: UCI move parsing of the rules library
(`chess.Move.from_uci`), returning `none` where the library raises
`ValueError` on a malformed string. -/
def moveFromUci (s : String) : Option Move :=
  match s.toList with
  | [a, b, c, d] =>
    match charFile a, charRank b, charFile c, charRank d with
    | some f1, some r1, some f2, some r2 =>
      some ⟨r1 * 8 + f1, r2 * 8 + f2, none⟩
    | _, _, _, _ => none
  | [a, b, c, d, e] =>
    match charFile a, charRank b, charFile c, charRank d, charPromo e with
    | some f1, some r1, some f2, some r2, some k =>
      some ⟨r1 * 8 + f1, r2 * 8 + f2, some k⟩
    | _, _, _, _, _ => none
  | _ => none

/-- Outcome of calling the external engine module's `get_best_move`:
either it raises, or it returns some string. -/
inductive EngineResponse where
  | raises
  | returns (s : String)

/-- Embeds `EngineWrapper._get_random_move`: pick an element of the legal
move list of the position and return its UCI string.  The random source
(`random.choice`, uniform over the list) is modelled by the index `k`
taken modulo the list length; `none` models the `ValueError` raised when
no legal move exists. -/
def get_random_move (b : Board) (k : Nat) : Option String :=
  let legal_moves := legalMovesList b.pos
  if legal_moves.isEmpty then none
  else some (uciOfMove (legal_moves.getD (k % legal_moves.length) ⟨0, 0, none⟩))

/-- Embeds `EngineWrapper.get_best_move`: fall back to a random legal move
when the engine is not loaded, raises, returns a malformed UCI string, or
returns an illegal move; otherwise return the engine's string. -/
def get_best_move (model_loaded : Bool) (resp : EngineResponse) (b : Board)
    (k : Nat) : Option String :=
  if !model_loaded then get_random_move b k
  else
    match resp with
    | .raises => get_random_move b k
    | .returns s =>
      match moveFromUci s with
      | none => get_random_move b k
      | some move =>
        if isLegalMoveB b.pos move then some s
        else get_random_move b k

/-- Modelled from the spec: a portable game-record text ("PGN-equivalent")
in structured form — the ordered header key/value pairs followed by the
main line of moves.  Annotations, comments and variations are not
represented ("no annotations"). -/
structure PgnGame where
  headers : List (String × String)
  moves : List Move
deriving DecidableEq

/-- Modelled from the spec: the Seven Tag Roster header defaults that a
fresh game record carries before any header is set. -/
def defaultHeaders : List (String × String) :=
  [("Event", "?"), ("Site", "?"), ("Date", "????.??.??"), ("Round", "?"),
   ("White", "?"), ("Black", "?"), ("Result", "*")]

/-- Updates a header in place, appending it when the key is new. -/
def setHeader (hs : List (String × String)) (k v : String) :
    List (String × String) :=
  if hs.any (fun kv => kv.1 == k) then
    hs.map fun kv => if kv.1 == k then (k, v) else kv
  else hs ++ [(k, v)]

/-- Embeds `BoardState.to_pgn`: build a fresh game record, set the Event,
White, Black and Result headers, and add every move of the move stack as
the main line. -/
def BoardState.to_pgn (s : BoardState)
    (white_name black_name event : String) : PgnGame :=
  let hs0 := defaultHeaders
  let hs1 := setHeader hs0 "Event" event
  let hs2 := setHeader hs1 "White" white_name
  let hs3 := setHeader hs2 "Black" black_name
  let hs4 := setHeader hs3 "Result" ((s.get_game_result).getD "*")
  ⟨hs4, s.board.moveStack⟩

/-- The default-argument form `to_pgn()` used by the repository. -/
def BoardState.to_pgnD (s : BoardState) : PgnGame :=
  s.to_pgn "Human" "Engine" "Casual Game"

/-- Replay used by `BoardState.from_pgn`: each move of the record is fed to
`BoardState.make_move` with the returned success flag ignored. -/
def replayMoves (st : BoardState) (ms : List Move) : BoardState :=
  ms.foldl (fun s mv => (s.make_move mv).2) st

/-- Embeds `BoardState.from_pgn`: an unreadable record (`read_game`
returning `None`, modelled by the `none` argument) raises `ValueError`;
otherwise a fresh `BoardState` replays the main line through `make_move`,
ignoring each move's success flag. -/
def BoardState.from_pgn (rec? : Option PgnGame) : Except String BoardState :=
  match rec? with
  | none => .error "Invalid PGN string provided."
  | some g => .ok (replayMoves BoardState.initial g.moves)

/-- Whether every move of a record is legal when its turn comes during a
replay from the given state. -/
def replayOk (st : BoardState) : List Move → Bool
  | [] => true
  | mv :: rest =>
    if isLegalMoveB st.board.pos mv then replayOk (st.make_move mv).2 rest
    else false

/-- A well-formed record: its main line replays legally from the standard
starting position. -/
def PgnGame.wellFormed (g : PgnGame) : Bool :=
  replayOk BoardState.initial g.moves

/-! ### Helper lemmas -/

/-- Appending one element never yields the empty list. -/
theorem append_singleton_isEmpty {α : Type} (l : List α) (a : α) :
    (l ++ [a]).isEmpty = false := by
  cases l <;> rfl

/-- Dropping the last element of `l ++ [a]` gives back `l`. -/
theorem append_singleton_dropLast {α : Type} (l : List α) (a : α) :
    (l ++ [a]).dropLast = l := by
  simp

/-- A legal move makes `make_move` succeed with the recorded push. -/
theorem make_move_of_legal (s : BoardState) (m : Move)
    (h : isLegalMoveB s.board.pos m = true) :
    s.make_move m =
      (true,
        { board := s.board.push m
          move_history_uci := s.move_history_uci ++ [uciOfMove m]
          move_history_san := s.move_history_san ++ [sanOfMove s.board.pos m] }) := by
  simp [BoardState.make_move, h]

/-- An illegal move makes `make_move` reject and return the state unchanged. -/
theorem make_move_of_illegal (s : BoardState) (m : Move)
    (h : isLegalMoveB s.board.pos m = false) :
    s.make_move m = (false, s) := by
  simp [BoardState.make_move, h]

/-! ### C3: apply-then-undo restores the position and histories -/

/-- C3: for every position and every move legal in it, applying the move
through `make_move` and immediately calling `undo_move` returns the undone
move and restores the state exactly; in particular the complete FEN
(castling rights, en-passant target, half-move clock, full-move number
included) and both move-history lists are restored. -/
theorem make_move_undo_roundtrip (s : BoardState) (m : Move)
    (h : isLegalMoveB s.board.pos m = true) :
    (s.make_move m).2.undo_move = (some m, s) ∧
    ((s.make_move m).2.undo_move).2.get_fen = s.get_fen ∧
    ((s.make_move m).2.undo_move).2.move_history_uci = s.move_history_uci ∧
    ((s.make_move m).2.undo_move).2.move_history_san = s.move_history_san := by
  have h1 :
      (s.make_move m).2.undo_move = (some m, s) := by
    rw [make_move_of_legal s m h]
    show BoardState.undo_move
      { board := s.board.push m
        move_history_uci := s.move_history_uci ++ [uciOfMove m]
        move_history_san := s.move_history_san ++ [sanOfMove s.board.pos m] }
      = (some m, s)
    simp [BoardState.undo_move, Board.push, Board.pop,
      append_singleton_isEmpty, append_singleton_dropLast]
  exact ⟨h1, by rw [h1], by rw [h1], by rw [h1]⟩

/-- Witness for C3 at a concrete input: the move e2e4 is legal in the
starting position, and applying then undoing it restores the initial
state. -/
theorem make_move_undo_roundtrip_witness :
    (BoardState.initial.make_move ⟨12, 28, none⟩).2.undo_move
      = (some ⟨12, 28, none⟩, BoardState.initial) :=
  (make_move_undo_roundtrip BoardState.initial ⟨12, 28, none⟩ (by decide)).1

/-! ### C4: rejection of an illegal move is side-effect free and idempotent -/

/-- C4: an illegal move is rejected by `make_move` with the state left
unchanged, rejecting it a second time again returns `False` and mutates
nothing, and `InputHandler._try_make_move` on an illegal (non-promotion)
destination clears the selection, applies no move and leaves the shared
`BoardState` unchanged. -/
theorem illegal_move_rejection_idempotent (s : BoardState) (m : Move)
    (ih : InputHandler) (t : Nat) (promo : Option PieceKind) (selSq : Nat)
    (h : isLegalMoveB s.board.pos m = false)
    (hsel : ih.selected_square = some selSq)
    (hp : ih.is_promotion_move ⟨selSq, t, none⟩ = false)
    (hil : isLegalMoveB ih.board_state.board.pos ⟨selSq, t, none⟩ = false) :
    s.make_move m = (false, s) ∧
    ((s.make_move m).2).make_move m = (false, s) ∧
    ih.try_make_move t promo = (false, ih.deselect) ∧
    (ih.try_make_move t promo).2.board_state = ih.board_state := by
  refine ⟨make_move_of_illegal s m h, ?_, ?_, ?_⟩
  · rw [make_move_of_illegal s m h]
    exact make_move_of_illegal s m h
  · simp [InputHandler.try_make_move, hsel, hp, hil]
  · simp [InputHandler.try_make_move, hsel, hp, hil, InputHandler.deselect]

/-- Witness for C4 at a concrete input: e2e5 is illegal in the starting
position; `make_move` rejects it twice without mutation, and the input
handler's attempt with e2 selected clears the selection. -/
theorem illegal_move_rejection_idempotent_witness :
    BoardState.initial.make_move ⟨12, 36, none⟩ = (false, BoardState.initial) ∧
    ((BoardState.initial.make_move ⟨12, 36, none⟩).2).make_move ⟨12, 36, none⟩
      = (false, BoardState.initial) ∧
    ({ InputHandler.init BoardState.initial with
        selected_square := some 12 }).try_make_move 36 none
      = (false, ({ InputHandler.init BoardState.initial with
          selected_square := some 12 }).deselect) ∧
    (({ InputHandler.init BoardState.initial with
        selected_square := some 12 }).try_make_move 36 none).2.board_state
      = BoardState.initial := by
  have h := illegal_move_rejection_idempotent BoardState.initial ⟨12, 36, none⟩
    ({ InputHandler.init BoardState.initial with selected_square := some 12 })
    36 none 12 (by decide) rfl (by decide) (by decide)
  exact ⟨h.1, h.2.1, h.2.2.1, h.2.2.2⟩

/-! ### C5: terminal-condition priority order -/

/-- C5: both terminal evaluators (`check_game_end_conditions` of main.py
and `BoardState.get_game_status`) report exactly the first matching
condition in the fixed order checkmate (winner: the side not to move),
stalemate, insufficient material, fifty-move-claimable,
threefold-repetition-claimable; whenever several conditions hold at
once the highest-priority one is reported, and checkmate dominates
every draw condition. -/
theorem terminal_priority_order (s : BoardState) :
    (s.board.is_checkmate = true →
      check_game_end_conditions s =
        (true, some "checkmate",
          some (if s.board.pos.turn = Side.black then "White" else "Black"),
          some "") ∧
      s.get_game_status =
        "Checkmate! " ++ (if s.is_white_turn then "Black" else "White")
          ++ " wins") ∧
    (s.board.is_checkmate = false → s.board.is_stalemate = true →
      check_game_end_conditions s = (true, some "stalemate", none, some "") ∧
      s.get_game_status = "Stalemate - Draw") ∧
    (s.board.is_checkmate = false → s.board.is_stalemate = false →
      s.board.is_insufficient_material = true →
      check_game_end_conditions s =
        (true, some "draw", none, some "insufficient material") ∧
      s.get_game_status = "Draw - Insufficient material") ∧
    (s.board.is_checkmate = false → s.board.is_stalemate = false →
      s.board.is_insufficient_material = false →
      s.board.can_claim_fifty_moves = true →
      check_game_end_conditions s =
        (true, some "draw", none, some "50-move rule") ∧
      s.get_game_status = "Draw claimable - 50 move rule") ∧
    (s.board.is_checkmate = false → s.board.is_stalemate = false →
      s.board.is_insufficient_material = false →
      s.board.can_claim_fifty_moves = false →
      s.board.can_claim_threefold_repetition = true →
      check_game_end_conditions s =
        (true, some "draw", none, some "threefold repetition") ∧
      s.get_game_status = "Draw claimable - Threefold repetition") := by
  refine ⟨?_, ?_, ?_, ?_, ?_⟩ <;> intros <;>
    constructor <;>
      simp [check_game_end_conditions, BoardState.get_game_status, *]

/-- The fool's mate board state, reached by legal play
(f2f3, e7e5, g2g4, d8h4). -/
def foolsMate : BoardState :=
  ((((BoardState.initial.make_move ⟨13, 21, none⟩).2.make_move
      ⟨52, 36, none⟩).2.make_move ⟨14, 30, none⟩).2.make_move ⟨59, 31, none⟩).2

/-- Witness for C5 at a concrete input: the fool's mate position is a
checkmate and is reported as checkmate won by Black. -/
theorem terminal_priority_order_witness :
    check_game_end_conditions foolsMate =
      (true, some "checkmate", some "Black", some "") := by
  have h := (terminal_priority_order foolsMate).1 (by decide)
  simpa using h.1

/-! ### C1: premove draining applies at most the head move -/

/-- C1: with a non-empty premove queue,
`InputHandler.execute_next_premove_if_valid` either applies exactly the
head move through normal `make_move` (recording it in both history lists
like a live move), pops only that head and clears the selection, or — when
the head is no longer legal in the real position — clears the entire queue
and the selection while leaving `BoardState` untouched; it never applies
more than one queued move and never clears the queue partially. -/
theorem premove_drain_single_step (ih : InputHandler) (m : Move)
    (rest : List Move) (h : ih.premove_queue = m :: rest) :
    (isLegalMoveB ih.board_state.board.pos m = true →
      (ih.execute_next_premove_if_valid).1 = true ∧
      (ih.execute_next_premove_if_valid).2.premove_queue = rest ∧
      (ih.execute_next_premove_if_valid).2.board_state
        = (ih.board_state.make_move m).2 ∧
      (ih.board_state.make_move m).1 = true ∧
      (ih.execute_next_premove_if_valid).2.board_state.move_history_uci
        = ih.board_state.move_history_uci ++ [uciOfMove m] ∧
      (ih.execute_next_premove_if_valid).2.board_state.move_history_san
        = ih.board_state.move_history_san
            ++ [sanOfMove ih.board_state.board.pos m] ∧
      (ih.execute_next_premove_if_valid).2.selected_square = none) ∧
    (isLegalMoveB ih.board_state.board.pos m = false →
      (ih.execute_next_premove_if_valid).1 = false ∧
      (ih.execute_next_premove_if_valid).2.premove_queue = [] ∧
      (ih.execute_next_premove_if_valid).2.board_state = ih.board_state ∧
      (ih.execute_next_premove_if_valid).2.selected_square = none) := by
  constructor
  · intro hleg
    rw [InputHandler.execute_next_premove_if_valid, h]
    rw [make_move_of_legal ih.board_state m hleg]
    cases rest <;>
      simp [hleg, make_move_of_legal ih.board_state m hleg,
        InputHandler.deselect]
  · intro hleg
    rw [InputHandler.execute_next_premove_if_valid, h]
    simp [hleg, InputHandler.deselect]

/-- Witness for C1 at a concrete input: with the fresh starting position
and the single queued premove e2e4 (legal), the drain step applies it,
empties the queue, and records it in the UCI history. -/
theorem premove_drain_single_step_witness :
    (({ InputHandler.init BoardState.initial with
        premove_queue := [⟨12, 28, none⟩] }).execute_next_premove_if_valid
      ).2.premove_queue = [] ∧
    (({ InputHandler.init BoardState.initial with
        premove_queue := [⟨12, 28, none⟩] }).execute_next_premove_if_valid
      ).2.board_state.move_history_uci = ["e2e4"] := by
  have h := (premove_drain_single_step
    ({ InputHandler.init BoardState.initial with
        premove_queue := [⟨12, 28, none⟩] }) ⟨12, 28, none⟩ [] rfl).1 (by decide)
  refine ⟨h.2.1, ?_⟩
  rw [h.2.2.2.2.1]
  rfl

/-! ### C6: promotion ambiguity is rejected -/

/-- Coordinates on the board map to square indices below 64. -/
theorem sqOf_lt {f r : Int} (h : inBoard f r = true) : sqOf f r < 64 := by
  simp only [inBoard, Bool.and_eq_true, decide_eq_true_eq] at h
  simp only [sqOf]
  omega

/-- Step targets are on-board squares. -/
theorem mem_stepTargets_lt {p : Position} {side : Side} {sq : Nat}
    {offs : List (Int × Int)} {t : Nat} (h : t ∈ stepTargets p side sq offs) :
    t < 64 := by
  simp only [stepTargets, List.mem_filterMap] at h
  obtain ⟨od, _, h⟩ := h
  split at h
  · next hib =>
    split at h
    · split at h
      · cases h
      · rw [Option.some_inj] at h; subst h; exact sqOf_lt hib
    · rw [Option.some_inj] at h; subst h; exact sqOf_lt hib
  · cases h

/-- Ray targets are on-board squares. -/
theorem mem_rayTargets_lt {p : Position} {side : Side} :
    ∀ {fuel : Nat} {f r df dr : Int} {t : Nat},
      t ∈ rayTargets p side f r df dr fuel → t < 64 := by
  intro fuel
  induction fuel with
  | zero => intro f r df dr t h; cases h
  | succ n ih =>
    intro f r df dr t h
    rw [rayTargets] at h
    dsimp only at h
    split at h
    · next hib =>
      split at h
      · rcases List.mem_cons.mp h with rfl | h2
        · exact sqOf_lt hib
        · exact ih h2
      · split at h
        · cases h
        · rw [List.mem_singleton] at h; subst h; exact sqOf_lt hib
    · cases h

/-- Slide targets are on-board squares. -/
theorem mem_slideTargets_lt {p : Position} {side : Side} {sq : Nat}
    {dirs : List (Int × Int)} {t : Nat} (h : t ∈ slideTargets p side sq dirs) :
    t < 64 := by
  simp only [slideTargets, List.mem_flatMap] at h
  obtain ⟨d, _, h⟩ := h
  exact mem_rayTargets_lt h

/-- Pawn targets are on-board squares. -/
theorem mem_pawnTargets_lt {p : Position} {c : Side} {sq : Nat} {t : Nat}
    (h : t ∈ pawnTargets p c sq) : t < 64 := by
  simp only [pawnTargets, List.mem_append] at h
  rcases h with (h | h) | h
  · split at h
    · next hib =>
      rw [List.mem_singleton] at h
      subst h
      simp only [Bool.and_eq_true] at hib
      exact sqOf_lt hib.1
    · cases h
  · split at h
    · next hib =>
      rw [List.mem_singleton] at h
      subst h
      simp only [Bool.and_eq_true] at hib
      exact sqOf_lt hib.1.2
    · cases h
  · simp only [List.mem_filterMap] at h
    obtain ⟨df, _, h⟩ := h
    split at h
    · next hib =>
      split at h
      · split at h
        · cases h
        · rw [Option.some_inj] at h; subst h; exact sqOf_lt hib
      · split at h
        · rw [Option.some_inj] at h; subst h; exact sqOf_lt hib
        · cases h
    · cases h

/-- Moves built from targets keep the source square, carry no promotion,
and land on one of the targets. -/
theorem mem_movesFromTargets {sq : Nat} {ts : List Nat} {m : Move}
    (h : m ∈ movesFromTargets sq ts) :
    m.fromSq = sq ∧ m.promotion = none ∧ m.toSq ∈ ts := by
  simp only [movesFromTargets, List.mem_map] at h
  obtain ⟨t, ht, rfl⟩ := h
  exact ⟨rfl, rfl, ht⟩

/-- Pawn moves keep the source square, land on the board, and a pawn move
without promotion never lands on the terminal rank. -/
theorem mem_pawnMoves {p : Position} {c : Side} {sq : Nat} {m : Move}
    (h : m ∈ pawnMoves p c sq) :
    m.fromSq = sq ∧ m.toSq < 64 ∧
      (m.promotion = none → ¬ m.toSq / 8 = promoRank c) := by
  simp only [pawnMoves, List.mem_flatMap] at h
  obtain ⟨t, ht, hm⟩ := h
  have hlt := mem_pawnTargets_lt ht
  by_cases hpr : t / 8 = promoRank c
  · rw [if_pos hpr] at hm
    simp only [promoKinds, List.map, List.mem_cons, List.mem_singleton] at hm
    rcases hm with rfl | rfl | rfl | rfl | hm
    · exact ⟨rfl, hlt, by intro hn; cases hn⟩
    · exact ⟨rfl, hlt, by intro hn; cases hn⟩
    · exact ⟨rfl, hlt, by intro hn; cases hn⟩
    · exact ⟨rfl, hlt, by intro hn; cases hn⟩
    · cases hm
  · rw [if_neg hpr] at hm
    simp only [List.mem_singleton] at hm
    subst hm
    exact ⟨rfl, hlt, fun _ => hpr⟩

/-- Castling moves keep the source square, carry no promotion, and land
on the board. -/
theorem mem_castleMoves {p : Position} {c : Side} {sq : Nat} {m : Move}
    (h : m ∈ castleMoves p c sq) :
    m.fromSq = sq ∧ m.promotion = none ∧ m.toSq < 64 := by
  cases c
  all_goals
    simp only [castleMoves] at h
    split at h
    · cases h
    · next hne =>
      rw [List.mem_append] at h
      rcases h with h | h <;> split at h <;>
        first
          | (rw [List.mem_singleton] at h; subst h;
             exact ⟨(not_not.mp hne).symm, rfl, by decide⟩)
          | cases h

/-- Every generated piece move starts at the generating square and lands
on the board. -/
theorem mem_pieceMoves {p : Position} {pc : Piece} {sq : Nat} {m : Move}
    (h : m ∈ pieceMoves p pc sq) : m.fromSq = sq ∧ m.toSq < 64 := by
  obtain ⟨k, c⟩ := pc
  cases k <;> simp only [pieceMoves] at h
  · exact ⟨(mem_pawnMoves h).1, (mem_pawnMoves h).2.1⟩
  · exact ⟨(mem_movesFromTargets h).1,
      mem_stepTargets_lt (mem_movesFromTargets h).2.2⟩
  · exact ⟨(mem_movesFromTargets h).1,
      mem_slideTargets_lt (mem_movesFromTargets h).2.2⟩
  · exact ⟨(mem_movesFromTargets h).1,
      mem_slideTargets_lt (mem_movesFromTargets h).2.2⟩
  · exact ⟨(mem_movesFromTargets h).1,
      mem_slideTargets_lt (mem_movesFromTargets h).2.2⟩
  · rw [List.mem_append] at h
    rcases h with h | h
    · exact ⟨(mem_movesFromTargets h).1,
        mem_stepTargets_lt (mem_movesFromTargets h).2.2⟩
    · exact ⟨(mem_castleMoves h).1, (mem_castleMoves h).2.2⟩

/-- Every pseudo-legal move originates from a square below 64 held by a
piece of the side to move, belongs to that piece's move list, and lands
on a square below 64. -/
theorem mem_pseudoMoves {p : Position} {m : Move} (h : m ∈ pseudoMoves p) :
    ∃ pc, pieceAt p m.fromSq = some pc ∧ pc.color = p.turn ∧
      m ∈ pieceMoves p pc m.fromSq ∧ m.fromSq < 64 ∧ m.toSq < 64 := by
  simp only [pseudoMoves, List.mem_flatMap, List.mem_range] at h
  obtain ⟨sq, hsq, hm⟩ := h
  cases hpa : pieceAt p sq with
  | none => rw [hpa] at hm; cases hm
  | some pc =>
    rw [hpa] at hm
    have hm2 : m ∈ (if pc.color = p.turn then pieceMoves p pc sq else []) := hm
    by_cases ht : pc.color = p.turn
    · rw [if_pos ht] at hm2
      have hf := (mem_pieceMoves hm2).1
      refine ⟨pc, ?_, ht, ?_, ?_, (mem_pieceMoves hm2).2⟩
      · rw [hf]; exact hpa
      · rw [hf]; exact hm2
      · rw [hf]; exact hsq
    · rw [if_neg ht] at hm2; cases hm2

/-- Every legal move has both squares below 64. -/
theorem mem_legalMoves_bounds {p : Position} {m : Move}
    (h : m ∈ legalMovesList p) : m.fromSq < 64 ∧ m.toSq < 64 := by
  have hps : m ∈ pseudoMoves p :=
    (List.mem_filter.mp (by simpa only [legalMovesList] using h)).1
  obtain ⟨_, _, _, _, h1, h2⟩ := mem_pseudoMoves hps
  exact ⟨h1, h2⟩

/-- A pawn move to the terminal rank that carries no promotion kind is
not a legal move. -/
theorem promotionless_not_legal {p : Position} {f t : Nat} {c : Side}
    (hp : pieceAt p f = some ⟨PieceKind.pawn, c⟩) (ht : t / 8 = promoRank c) :
    isLegalMoveB p ⟨f, t, none⟩ = false := by
  rw [isLegalMoveB, decide_eq_false_iff_not]
  intro hmem
  have hps : (⟨f, t, none⟩ : Move) ∈ pseudoMoves p :=
    (List.mem_filter.mp (by simpa only [legalMovesList] using hmem)).1
  obtain ⟨pc, hpa, _, hmem2, _, _⟩ := mem_pseudoMoves hps
  rw [hp] at hpa
  injection hpa with h1
  subst h1
  simp only [pieceMoves] at hmem2
  exact (mem_pawnMoves hmem2).2.2 rfl ht

/-- C6: a move is detected as a promotion exactly when the moving piece is
a pawn and the destination lies on rank 8 for white or rank 1 for black;
and `make_move` rejects any such move carrying no promotion piece kind,
leaving the state unchanged rather than guessing. -/
theorem promotion_ambiguity_rejected (s : BoardState) (f t : Nat) :
    (s.is_promotion_move f t = true ↔
      ∃ c, pieceAt s.board.pos f = some ⟨PieceKind.pawn, c⟩ ∧
        t / 8 = promoRank c) ∧
    (s.is_promotion_move f t = true →
      s.make_move ⟨f, t, none⟩ = (false, s)) := by
  have hiff : s.is_promotion_move f t = true ↔
      ∃ c, pieceAt s.board.pos f = some ⟨PieceKind.pawn, c⟩ ∧
        t / 8 = promoRank c := by
    cases hpa : pieceAt s.board.pos f with
    | none => simp [BoardState.is_promotion_move, hpa]
    | some pc =>
      obtain ⟨k, c⟩ := pc
      cases k <;> cases c <;>
        simp [BoardState.is_promotion_move, hpa, promoRank]
  refine ⟨hiff, fun h => ?_⟩
  obtain ⟨c, hp, ht⟩ := hiff.mp h
  exact make_move_of_illegal s _ (promotionless_not_legal hp ht)

/-- An all-empty board. -/
def emptyBoard : List (Option Piece) := List.replicate 64 none

/-- The repository's "promotion" test position
(8/P7/8/8/8/8/8/4K2k w - - 0 1): a white pawn on a7 ready to promote. -/
def promoTestPos : Position :=
  { pieces :=
      ((emptyBoard.set 48 (some ⟨.pawn, .white⟩)).set 4
        (some ⟨.king, .white⟩)).set 7 (some ⟨.king, .black⟩)
    turn := .white
    castleWK := false
    castleWQ := false
    castleBK := false
    castleBQ := false
    epSquare := none
    halfmoveClock := 0
    fullmoveNumber := 1 }

/-- Witness for C6 at a concrete input: a7a8 is a promotion move in the
promotion test position, and `make_move` without a promotion kind rejects
it with no mutation. -/
theorem promotion_ambiguity_rejected_witness :
    (⟨⟨promoTestPos, []⟩, [], []⟩ : BoardState).is_promotion_move 48 56 = true ∧
    (⟨⟨promoTestPos, []⟩, [], []⟩ : BoardState).make_move ⟨48, 56, none⟩
      = (false, (⟨⟨promoTestPos, []⟩, [], []⟩ : BoardState)) :=
  ⟨by decide,
    (promotion_ambiguity_rejected (⟨⟨promoTestPos, []⟩, [], []⟩ : BoardState)
      48 56).2 (by decide)⟩

/-! ### C7: scenario A — knight destinations from f3 -/

/-- The scenario A state: a fresh game after e2e4, e7e5, g1f3, b8c6
(squares: e2 = 12, e4 = 28, e7 = 52, e5 = 36, g1 = 6, f3 = 21, b8 = 57,
c6 = 42). -/
def scenarioA : BoardState :=
  ((((BoardState.initial.make_move ⟨12, 28, none⟩).2.make_move
      ⟨52, 36, none⟩).2.make_move ⟨6, 21, none⟩).2.make_move ⟨57, 42, none⟩).2

/-- Counterexample to C7 as stated: in the scenario A position the knight
on f3 may legally return to the now-empty g1 square, so g1 (square 6) IS
among the destinations and the destination set is not {d4, e5, g5, h4}. -/
theorem scenarioA_g1_is_destination :
    6 ∈ scenarioA.get_legal_destinations_from_square 21 ∧
    (scenarioA.get_legal_destinations_from_square 21).toFinset
      ≠ ({27, 36, 38, 31} : Finset Nat) := by
  constructor
  · decide
  · decide

/-- C7 (amended): in the scenario A position the destinations of legal
moves from f3 are exactly {d4, e5, g5, h4, g1}
(squares {27, 36, 38, 31, 6}). -/
theorem scenarioA_destinations :
    (scenarioA.get_legal_destinations_from_square 21).toFinset
      = ({27, 36, 38, 31, 6} : Finset Nat) := by
  decide

/-! ### C2: premove entry validates against the projected position -/

/-- The premove selection phase never touches the shared board state or
the premove queue. -/
theorem premove_select_preserves (human : Side) (ih : InputHandler)
    (square : Nat) :
    (ih.premove_select human square).2.board_state = ih.board_state ∧
    (ih.premove_select human square).2.premove_queue = ih.premove_queue := by
  unfold InputHandler.premove_select
  dsimp only
  constructor
  · split
    · rfl
    · split <;> rfl
  · split
    · rfl
    · split <;> rfl

/-- `_try_make_move` never touches the premove queue. -/
theorem try_make_move_preserves_queue (ih : InputHandler) (t : Nat)
    (promo : Option PieceKind) :
    (ih.try_make_move t promo).2.premove_queue = ih.premove_queue := by
  cases promo <;>
  · unfold InputHandler.try_make_move
    dsimp only
    split
    · rfl
    · split
      · rfl
      · split
        · rfl
        · split <;> rfl

/-- The premove click path never touches the shared board state. -/
theorem premove_click_board (human : Side) (ih : InputHandler) (square : Nat)
    (promo : Option PieceKind) :
    (ih.handle_premove_click human square promo).2.board_state
      = ih.board_state := by
  cases promo <;>
  · unfold InputHandler.handle_premove_click
    dsimp only
    split
    · exact (premove_select_preserves human ih square).1
    · split
      · exact (premove_select_preserves human ih.deselect square).1
      · split
        · rfl
        · split <;> rfl

/-- The premove click path leaves the queue unchanged or appends one move
legal in the board it validates against: the (possibly truncated) visual
board with the turn forced to the human's side. -/
theorem premove_click_queue (human : Side) (ih : InputHandler) (square : Nat)
    (promo : Option PieceKind) :
    (ih.handle_premove_click human square promo).2.premove_queue
        = ih.premove_queue ∨
      ∃ m, (ih.handle_premove_click human square promo).2.premove_queue
          = ih.premove_queue ++ [m] ∧
        isLegalMoveB
          { (buildVisualBoard human ih.board_state ih.premove_queue).pos with
              turn := human } m
          = true := by
  cases promo <;>
  · unfold InputHandler.handle_premove_click
    dsimp only
    split
    · exact Or.inl (premove_select_preserves human ih square).2
    · split
      · exact Or.inl (premove_select_preserves human ih.deselect square).2
      · split
        · exact Or.inl rfl
        · split
          · exact Or.inl rfl
          · next hleg =>
            refine Or.inr ⟨_, rfl, ?_⟩
            simpa using hleg

/-- The premove drag-release path (engine thinking, premove enabled),
when it returns at all, never touches the shared board state. -/
theorem premove_drag_board (human : Side) (ih : InputHandler)
    (tq? : Option Nat) (engTh prem : Bool) (promo2 : Option PieceKind)
    (r : Bool × InputHandler)
    (hr : InputHandler.handle_mouse_up human prem ih tq? engTh promo2 = some r)
    (he : engTh = true) (hp : prem = true) :
    r.2.board_state = ih.board_state := by
  subst he
  subst hp
  cases promo2 <;>
  · unfold InputHandler.handle_mouse_up at hr
    dsimp only at hr
    split at hr
    · cases hr; rfl
    · split at hr
      · cases hr; rfl
      · cases hr; rfl
      · split at hr
        · cases hr; rfl
        · have htt : ((true && true) = true) := rfl
          rw [if_pos htt] at hr
          split at hr
          · simp at hr
          · split at hr
            · cases hr; rfl
            · split at hr
              · cases hr; rfl
              · split at hr
                · cases hr; rfl
                · cases hr; rfl

/-- The drag-release path, when it returns at all, leaves the queue
unchanged or appends one move legal in the successfully rebuilt
projection of `_get_premove_logic_board`. -/
theorem premove_drag_queue (human : Side) (ih : InputHandler)
    (tq? : Option Nat) (engTh prem : Bool) (promo2 : Option PieceKind)
    (r : Bool × InputHandler)
    (hr : InputHandler.handle_mouse_up human prem ih tq? engTh promo2
      = some r) :
    r.2.premove_queue = ih.premove_queue ∨
      ∃ m lb,
        premoveLogicBoard human ih.board_state ih.premove_queue = some lb ∧
        r.2.premove_queue = ih.premove_queue ++ [m] ∧
        isLegalMoveB lb.pos m = true := by
  cases promo2 <;>
  · unfold InputHandler.handle_mouse_up at hr
    dsimp only at hr
    split at hr
    · cases hr; exact Or.inl rfl
    · split at hr
      · cases hr; exact Or.inl rfl
      · cases hr; exact Or.inl rfl
      · split at hr
        · cases hr; exact Or.inl rfl
        · split at hr
          · split at hr
            · simp at hr
            · next hlb =>
              split at hr
              · cases hr; exact Or.inl rfl
              · split at hr
                · cases hr; exact Or.inl rfl
                · split at hr
                  · cases hr; exact Or.inl rfl
                  · next hleg =>
                    cases hr
                    refine Or.inr ⟨_, _, hlb, rfl, ?_⟩
                    simpa using hleg
          · cases hr; exact Or.inl (try_make_move_preserves_queue _ _ _)

/-- A drag release can only fail to return (an uncaught exception) when
rebuilding the projection fails on a stale queued move. -/
theorem premove_drag_raises (human : Side) (ih : InputHandler)
    (tq? : Option Nat) (engTh prem : Bool) (promo2 : Option PieceKind)
    (hr : InputHandler.handle_mouse_up human prem ih tq? engTh promo2
      = none) :
    premoveLogicBoard human ih.board_state ih.premove_queue = none := by
  cases promo2 <;>
  · unfold InputHandler.handle_mouse_up at hr
    dsimp only at hr
    split at hr
    · simp at hr
    · split at hr
      · simp at hr
      · simp at hr
      · split at hr
        · simp at hr
        · split at hr
          · split at hr
            · next hlb => exact hlb
            · split at hr
              · simp at hr
              · split at hr
                · simp at hr
                · split at hr
                  · simp at hr
                  · simp at hr
          · simp at hr

/-- A click candidate premove that fails validation against the (possibly
truncated) visual board is discarded with the selection cleared. -/
theorem premove_click_fail (human : Side) (ih : InputHandler) (square : Nat)
    (promo : Option PieceKind) (selSq : Nat)
    (hsel : ih.selected_square = some selSq)
    (hown : ownPieceAt (buildVisualBoard human ih.board_state ih.premove_queue)
      square human = false)
    (hpp : pawnPromoTarget ih.selected_piece square = false)
    (hleg : isLegalMoveB
      { (buildVisualBoard human ih.board_state ih.premove_queue).pos with
          turn := human } ⟨selSq, square, none⟩ = false) :
    ih.handle_premove_click human square promo = (false, ih.deselect) := by
  simp [InputHandler.handle_premove_click, hsel, hown, hpp, hleg]

/-- C2 (amended): premove entry (click completion via
`_handle_premove_click` and drag release via `handle_mouse_up`) never
mutates the authoritative `BoardState`; the click path validates, and
only ever appends a move legal, against the *truncated* projection — the
real position with earlier queued moves applied in order (turn forced to
the human's side before each), stopping at the first queued move that can
no longer be pushed, with the turn forced once more; the drag path, when
it returns at all, appends only moves legal in the fully rebuilt
projection, and fails to return (an uncaught exception from
`_get_premove_logic_board`) exactly when the rebuild hits a stale queued
move; a candidate that fails its validation is discarded with the
selection cleared and the queue unchanged. -/
theorem premove_entry_truncated_projection (human : Side) (ih : InputHandler)
    (square : Nat) (promo : Option PieceKind) (tq? : Option Nat)
    (engTh prem : Bool) (promo2 : Option PieceKind) :
    ((ih.handle_premove_click human square promo).2.board_state
      = ih.board_state) ∧
    ((ih.handle_premove_click human square promo).2.premove_queue
        = ih.premove_queue ∨
      ∃ m, (ih.handle_premove_click human square promo).2.premove_queue
          = ih.premove_queue ++ [m] ∧
        isLegalMoveB
          { (buildVisualBoard human ih.board_state ih.premove_queue).pos with
              turn := human } m
          = true) ∧
    (∀ r, InputHandler.handle_mouse_up human prem ih tq? engTh promo2
        = some r →
      engTh = true → prem = true → r.2.board_state = ih.board_state) ∧
    (∀ r, InputHandler.handle_mouse_up human prem ih tq? engTh promo2
        = some r →
      r.2.premove_queue = ih.premove_queue ∨
      ∃ m lb,
        premoveLogicBoard human ih.board_state ih.premove_queue = some lb ∧
        r.2.premove_queue = ih.premove_queue ++ [m] ∧
        isLegalMoveB lb.pos m = true) ∧
    (InputHandler.handle_mouse_up human prem ih tq? engTh promo2 = none →
      premoveLogicBoard human ih.board_state ih.premove_queue = none) ∧
    (∀ selSq, ih.selected_square = some selSq →
      ownPieceAt (buildVisualBoard human ih.board_state ih.premove_queue)
          square human = false →
      pawnPromoTarget ih.selected_piece square = false →
      isLegalMoveB
          { (buildVisualBoard human ih.board_state ih.premove_queue).pos with
              turn := human } ⟨selSq, square, none⟩ = false →
      ih.handle_premove_click human square promo = (false, ih.deselect)) :=
  ⟨premove_click_board human ih square promo,
   premove_click_queue human ih square promo,
   fun r hr he hp => premove_drag_board human ih tq? engTh prem promo2 r hr he hp,
   fun r hr => premove_drag_queue human ih tq? engTh prem promo2 r hr,
   fun hr => premove_drag_raises human ih tq? engTh prem promo2 hr,
   fun selSq hsel hown hpp hleg =>
     premove_click_fail human ih square promo selSq hsel hown hpp hleg⟩

/-- Witness for C2 at a concrete input: with the board after e2e4 (black
to move, engine thinking), the human (white) has g1 selected; clicking f3
queues the legal premove g1f3, leaving the board state untouched. -/
theorem premove_entry_truncated_projection_witness :
    (({ InputHandler.init (BoardState.initial.make_move ⟨12, 28, none⟩).2 with
        selected_square := some 6,
        selected_piece := some ⟨.knight, .white⟩ }).handle_premove_click
          Side.white 21 none).2.board_state
      = (BoardState.initial.make_move ⟨12, 28, none⟩).2 ∧
    (({ InputHandler.init (BoardState.initial.make_move ⟨12, 28, none⟩).2 with
        selected_square := some 6,
        selected_piece := some ⟨.knight, .white⟩ }).handle_premove_click
          Side.white 21 none).2.premove_queue = [⟨6, 21, none⟩] := by
  have h := premove_entry_truncated_projection Side.white
    ({ InputHandler.init (BoardState.initial.make_move ⟨12, 28, none⟩).2 with
        selected_square := some 6,
        selected_piece := some ⟨.knight, .white⟩ }) 21 none none false false none
  exact ⟨h.1, by decide⟩

/-!
A reachable state with a stale premove queue, built entirely from the
embedded operations.  The human plays White against the engine:
1. Nf3 d5  2. Na3 d4  3. e4 — then, while the engine thinks, the human
queues the premoves h2h3, e4e5, f1c4 (each legal in its projection at
entry time).  The engine replies 3... dxe3 *en passant*, emptying e4;
the drain applies the head premove h2h3, leaving the queue
[e4e5, f1c4] in which e4e5 is no longer pushable.  The next premove
entry therefore validates against the truncated projection (the bare
real position), although the claim demands legality in the projection
with *all* earlier queued moves applied.
Squares: g1 = 6, f3 = 21, d7 = 51, d5 = 35, b1 = 1, a3 = 16, d4 = 27,
e2 = 12, e4 = 28, h2 = 15, h3 = 23, e5 = 36, f1 = 5, c4 = 26, e3 = 20.
-/

/-- The handler after 1. Nf3 (two clicks by the human). -/
def cexAfterNf3 : InputHandler :=
  (InputHandler.handle_mouse_click Side.white
    ((InputHandler.init BoardState.initial).handle_mouse_click Side.white
      (some 6) false true none).2
    (some 21) false true none).2

/-- The handler after 1... d5 (engine move plus soft reset). -/
def cexAfterD5 : InputHandler := applyEngineMove cexAfterNf3 ⟨51, 35, none⟩

/-- The handler after 2. Na3. -/
def cexAfterNa3 : InputHandler :=
  (InputHandler.handle_mouse_click Side.white
    (cexAfterD5.handle_mouse_click Side.white (some 1) false true none).2
    (some 16) false true none).2

/-- The handler after 2... d4. -/
def cexAfterD4 : InputHandler := applyEngineMove cexAfterNa3 ⟨35, 27, none⟩

/-- The handler after 3. e4. -/
def cexAfterE4 : InputHandler :=
  (InputHandler.handle_mouse_click Side.white
    (cexAfterD4.handle_mouse_click Side.white (some 12) false true none).2
    (some 28) false true none).2

/-- The handler after the human queues the premoves h2h3, e4e5 and f1c4
while the engine thinks (six premove clicks). -/
def cexQueued : InputHandler :=
  (InputHandler.handle_mouse_click Side.white
    (InputHandler.handle_mouse_click Side.white
      (InputHandler.handle_mouse_click Side.white
        (InputHandler.handle_mouse_click Side.white
          (InputHandler.handle_mouse_click Side.white
            (cexAfterE4.handle_mouse_click Side.white
              (some 15) true true none).2
            (some 23) true true none).2
          (some 28) true true none).2
        (some 36) true true none).2
      (some 5) true true none).2
    (some 26) true true none).2

/-- The handler after the engine's en-passant reply 3... dxe3 (which
empties e4) and the main-loop drain that applies the head premove h2h3:
the remaining queue [e4e5, f1c4] has a stale head. -/
def cexStale : InputHandler :=
  ((applyEngineMove cexQueued ⟨27, 20, none⟩).execute_next_premove_if_valid).2

/-- The stale-queue handler with f1 selected for the next premove entry
(one more premove click). -/
def cexSelected : InputHandler :=
  (cexStale.handle_mouse_click Side.white (some 5) true true none).2

/-- Counterexample to C2 as stated: in the reachable state `cexSelected`
(constructed above purely from the embedded operations), the premove
click on e2 appends the move f1e2 to the queue — yet f1e2 is NOT legal in
the projected position demanded by the claim (the real position with ALL
earlier queued moves applied, turn forced to the human's side), because
the stale queue made `build_visual_board` stop before applying f1c4, so
the entry was validated against a truncated projection. -/
theorem premove_entry_full_projection_counterexample :
    cexSelected.premove_queue = [⟨28, 36, none⟩, ⟨5, 26, none⟩] ∧
    (cexSelected.handle_premove_click Side.white 12 none).2.premove_queue
      = cexSelected.premove_queue ++ [⟨5, 12, none⟩] ∧
    isLegalMoveB
      (specProjectedBoard Side.white cexSelected.board_state
        cexSelected.premove_queue).pos ⟨5, 12, none⟩ = false := by
  decide

/-! ### C10: engine-response robustness -/

/-- Parsing inverts the file character of an on-board file. -/
theorem charFile_fileChar (x : Nat) (hx : x < 8) :
    charFile (Char.ofNat (97 + x)) = some x := by
  interval_cases x <;> decide

/-- Parsing inverts the rank character of an on-board rank. -/
theorem charRank_rankChar (x : Nat) (hx : x < 8) :
    charRank (Char.ofNat (49 + x)) = some x := by
  interval_cases x <;> decide

/-- Parsing a four-character UCI string built from two on-board squares
recovers the move. -/
theorem moveFromUci_mk4 (f t : Nat) (hf : f < 64) (ht : t < 64) :
    moveFromUci (String.mk
      [Char.ofNat (97 + f % 8), Char.ofNat (49 + f / 8),
       Char.ofNat (97 + t % 8), Char.ofNat (49 + t / 8)])
      = some ⟨f, t, none⟩ := by
  have hred : moveFromUci (String.mk
      [Char.ofNat (97 + f % 8), Char.ofNat (49 + f / 8),
       Char.ofNat (97 + t % 8), Char.ofNat (49 + t / 8)])
      = (match charFile (Char.ofNat (97 + f % 8)),
               charRank (Char.ofNat (49 + f / 8)),
               charFile (Char.ofNat (97 + t % 8)),
               charRank (Char.ofNat (49 + t / 8)) with
         | some f1, some r1, some f2, some r2 =>
           some (⟨r1 * 8 + f1, r2 * 8 + f2, none⟩ : Move)
         | _, _, _, _ => none) := rfl
  rw [hred, charFile_fileChar _ (Nat.mod_lt _ (by omega)),
      charRank_rankChar _ (by omega),
      charFile_fileChar _ (Nat.mod_lt _ (by omega)),
      charRank_rankChar _ (by omega)]
  simp only [Option.some_inj, Move.mk.injEq]
  refine ⟨by omega, by omega, trivial⟩

/-- Parsing a five-character UCI string built from two on-board squares
and a promotion character recovers the move. -/
theorem moveFromUci_mk5 (f t : Nat) (hf : f < 64) (ht : t < 64) (c : Char)
    (k : PieceKind) (hc : charPromo c = some k) :
    moveFromUci (String.mk
      [Char.ofNat (97 + f % 8), Char.ofNat (49 + f / 8),
       Char.ofNat (97 + t % 8), Char.ofNat (49 + t / 8), c])
      = some ⟨f, t, some k⟩ := by
  have hred : moveFromUci (String.mk
      [Char.ofNat (97 + f % 8), Char.ofNat (49 + f / 8),
       Char.ofNat (97 + t % 8), Char.ofNat (49 + t / 8), c])
      = (match charFile (Char.ofNat (97 + f % 8)),
               charRank (Char.ofNat (49 + f / 8)),
               charFile (Char.ofNat (97 + t % 8)),
               charRank (Char.ofNat (49 + t / 8)),
               charPromo c with
         | some f1, some r1, some f2, some r2, some k2 =>
           some (⟨r1 * 8 + f1, r2 * 8 + f2, some k2⟩ : Move)
         | _, _, _, _, _ => none) := rfl
  rw [hred, charFile_fileChar _ (Nat.mod_lt _ (by omega)),
      charRank_rankChar _ (by omega),
      charFile_fileChar _ (Nat.mod_lt _ (by omega)),
      charRank_rankChar _ (by omega), hc]
  simp only [Option.some_inj, Move.mk.injEq]
  refine ⟨by omega, by omega, trivial⟩

/-- Parsing inverts `uciOfMove` for any move with on-board squares. -/
theorem moveFromUci_uciOfMove (m : Move) (h1 : m.fromSq < 64)
    (h2 : m.toSq < 64) : moveFromUci (uciOfMove m) = some m := by
  obtain ⟨f, t, promo⟩ := m
  simp only at h1 h2
  cases promo with
  | none => exact moveFromUci_mk4 f t h1 h2
  | some k =>
    cases k
    · exact moveFromUci_mk5 f t h1 h2 'p' _ (by decide)
    · exact moveFromUci_mk5 f t h1 h2 'n' _ (by decide)
    · exact moveFromUci_mk5 f t h1 h2 'b' _ (by decide)
    · exact moveFromUci_mk5 f t h1 h2 'r' _ (by decide)
    · exact moveFromUci_mk5 f t h1 h2 'q' _ (by decide)
    · exact moveFromUci_mk5 f t h1 h2 'k' _ (by decide)

/-- The random fallback produces the UCI string of a legal move whenever
one exists. -/
theorem get_random_move_spec (b : Board) (k : Nat)
    (h : legalMovesList b.pos ≠ []) :
    ∃ s m, get_random_move b k = some s ∧ moveFromUci s = some m ∧
      m ∈ legalMovesList b.pos := by
  have hne : (legalMovesList b.pos).isEmpty = false := by
    rcases hl : legalMovesList b.pos with _ | ⟨a, as⟩
    · exact absurd hl h
    · rfl
  have hlen : 0 < (legalMovesList b.pos).length := by
    rcases hl : legalMovesList b.pos with _ | ⟨a, as⟩
    · exact absurd hl h
    · simp
  have hklt : k % (legalMovesList b.pos).length
      < (legalMovesList b.pos).length := Nat.mod_lt _ hlen
  have hgetD : (legalMovesList b.pos).getD
        (k % (legalMovesList b.pos).length) ⟨0, 0, none⟩
      = (legalMovesList b.pos).get
          ⟨k % (legalMovesList b.pos).length, hklt⟩ := by
    rw [List.getD_eq_getElem?_getD, List.getElem?_eq_getElem hklt]
    rfl
  have hmem : (legalMovesList b.pos).get
      ⟨k % (legalMovesList b.pos).length, hklt⟩ ∈ legalMovesList b.pos :=
    List.get_mem _ _ _
  have hb := mem_legalMoves_bounds hmem
  refine ⟨_, _, ?_, moveFromUci_uciOfMove _ hb.1 hb.2, hmem⟩
  simp only [get_random_move, hne, Bool.false_eq_true, if_false, hgetD]

/-- C10: for every position with at least one legal move, the wrapper's
`get_best_move` returns a UCI string that parses to a move legal in that
position — whether the engine is not loaded, raises, returns a malformed
UCI string, returns an illegal move (all of which fall back to a random
choice among the legal moves), or returns a legal move. -/
theorem engine_fallback_legal (loaded : Bool) (resp : EngineResponse)
    (b : Board) (k : Nat) (h : legalMovesList b.pos ≠ []) :
    ∃ s m, get_best_move loaded resp b k = some s ∧
      moveFromUci s = some m ∧ m ∈ legalMovesList b.pos := by
  cases loaded with
  | false => simpa [get_best_move] using get_random_move_spec b k h
  | true =>
    cases resp with
    | raises => simpa [get_best_move] using get_random_move_spec b k h
    | returns s =>
      cases hp : moveFromUci s with
      | none => simpa [get_best_move, hp] using get_random_move_spec b k h
      | some mv =>
        by_cases hl : isLegalMoveB b.pos mv = true
        · refine ⟨s, mv, ?_, hp, ?_⟩
          · simp [get_best_move, hp, hl]
          · have := hl
            rw [isLegalMoveB, decide_eq_true_iff] at this
            exact this
        · have hl2 : isLegalMoveB b.pos mv = false :=
            Bool.eq_false_iff.mpr hl
          simpa [get_best_move, hp, hl2] using get_random_move_spec b k h

/-- Witness for C10 at a concrete input: with no engine loaded and the
starting position (which has legal moves), the wrapper still returns a
legal move. -/
theorem engine_fallback_legal_witness :
    ∃ s m, get_best_move false EngineResponse.raises ⟨startPos, []⟩ 0
        = some s ∧
      moveFromUci s = some m ∧
      m ∈ legalMovesList (⟨startPos, []⟩ : Board).pos :=
  engine_fallback_legal false EngineResponse.raises ⟨startPos, []⟩ 0
    (by decide)

/-! ### C8 and C9: record round-trip and corrupt-record loading -/

/-- Pushing a move appends it to the move stack. -/
theorem moveStack_push (b : Board) (m : Move) :
    (b.push m).moveStack = b.moveStack ++ [m] := by
  simp [Board.moveStack, Board.push]

/-- A record whose moves replay legally yields exactly those moves on the
final move stack. -/
theorem replayMoves_moveStack (ms : List Move) :
    ∀ st : BoardState, replayOk st ms = true →
      (replayMoves st ms).board.moveStack = st.board.moveStack ++ ms := by
  induction ms with
  | nil => intro st _; simp [replayMoves]
  | cons mv rest ihr =>
    intro st h
    rw [replayOk] at h
    by_cases hleg : isLegalMoveB st.board.pos mv = true
    · rw [if_pos hleg] at h
      have step : replayMoves st (mv :: rest)
          = replayMoves (st.make_move mv).2 rest := by
        simp [replayMoves]
      rw [step, ihr _ h, make_move_of_legal st mv hleg]
      simp [moveStack_push]
    · rw [if_neg hleg] at h
      cases h

/-- Replay through `make_move` (success flags ignored) applies some
subsequence of the record's moves: the final move stack extends the
starting one by a sublist of the record. -/
theorem replayMoves_sublist (ms : List Move) :
    ∀ st : BoardState, ∃ applied,
      (replayMoves st ms).board.moveStack = st.board.moveStack ++ applied ∧
      applied.Sublist ms := by
  induction ms with
  | nil => intro st; exact ⟨[], by simp [replayMoves], List.Sublist.refl []⟩
  | cons mv rest ihr =>
    intro st
    have step : replayMoves st (mv :: rest)
        = replayMoves (st.make_move mv).2 rest := by
      simp [replayMoves]
    by_cases hleg : isLegalMoveB st.board.pos mv = true
    · obtain ⟨applied, heq, hsub⟩ := ihr (st.make_move mv).2
      refine ⟨mv :: applied, ?_, List.Sublist.cons₂ mv hsub⟩
      rw [step, heq, make_move_of_legal st mv hleg, moveStack_push]
      simp
    · have hleg2 : isLegalMoveB st.board.pos mv = false :=
        Bool.eq_false_iff.mpr hleg
      obtain ⟨applied, heq, hsub⟩ := ihr st
      refine ⟨applied, ?_, List.Sublist.cons mv hsub⟩
      rw [step, make_move_of_illegal st mv hleg2]
      exact heq

/-- A well-formed record whose headers differ from the exporter's output
(here in the White player name): to_pgn ∘ from_pgn changes the text. -/
def pgnAlice : PgnGame :=
  ⟨[("Event", "Casual Game"), ("Site", "?"), ("Date", "????.??.??"),
    ("Round", "?"), ("White", "Alice"), ("Black", "Engine"),
    ("Result", "*")], []⟩

/-- Counterexample to C8 as stated: `pgnAlice` is a well-formed record
with no annotations, loading it succeeds, but serializing the loaded
state does not reproduce the original text (the White header is rewritten
to the exporter's default "Human"). -/
theorem pgn_roundtrip_counterexample :
    pgnAlice.wellFormed = true ∧
    BoardState.from_pgn (some pgnAlice) = .ok BoardState.initial ∧
    BoardState.to_pgnD BoardState.initial ≠ pgnAlice := by
  refine ⟨rfl, rfl, ?_⟩
  decide

/-- C8 (amended): the round-trip `to_pgn (from_pgn text) = text` holds
exactly for records in the exporter's canonical form — a well-formed
record with no annotations whose headers equal the exporter's header
block for the replayed game with the default player and event names
(Event "Casual Game", White "Human", Black "Engine", the Site/Date/Round
defaults, and Result matching the replayed game's result). -/
theorem pgn_roundtrip_canonical (g : PgnGame) (hwf : g.wellFormed = true)
    (hh : g.headers
      = (BoardState.to_pgnD (replayMoves BoardState.initial g.moves)).headers) :
    BoardState.from_pgn (some g)
        = .ok (replayMoves BoardState.initial g.moves) ∧
    BoardState.to_pgnD (replayMoves BoardState.initial g.moves) = g := by
  refine ⟨rfl, ?_⟩
  have hms : (replayMoves BoardState.initial g.moves).board.moveStack
      = g.moves := by
    have h := replayMoves_moveStack g.moves BoardState.initial hwf
    simpa [BoardState.initial, Board.moveStack] using h
  obtain ⟨hs, ms⟩ := g
  have hsplit : BoardState.to_pgnD (replayMoves BoardState.initial ms)
      = ⟨(BoardState.to_pgnD (replayMoves BoardState.initial ms)).headers,
         (replayMoves BoardState.initial ms).board.moveStack⟩ := rfl
  rw [hsplit, hms, ← hh]

/-- Witness for C8 at a concrete input: the canonical record of the game
consisting of the single move e2e4 round-trips exactly. -/
theorem pgn_roundtrip_canonical_witness :
    BoardState.to_pgnD (replayMoves BoardState.initial
        (BoardState.to_pgnD (BoardState.initial.make_move ⟨12, 28, none⟩).2).moves)
      = BoardState.to_pgnD (BoardState.initial.make_move ⟨12, 28, none⟩).2 :=
  (pgn_roundtrip_canonical
    (BoardState.to_pgnD (BoardState.initial.make_move ⟨12, 28, none⟩).2)
    (by decide) (by decide)).2

/-- A corrupt record: its second move repeats e2e4, which is illegal at
replay time. -/
def pgnCorrupt : PgnGame :=
  ⟨defaultHeaders, [⟨12, 28, none⟩, ⟨12, 28, none⟩]⟩

/-- Counterexample to C9 as stated: loading the corrupt record
`pgnCorrupt` does not fail at the first illegal move — `from_pgn` returns
a successfully loaded state in which the illegal move was silently
skipped (the move stack holds only the first e2e4). -/
theorem from_pgn_corrupt_no_failure :
    pgnCorrupt.wellFormed = false ∧
    BoardState.from_pgn (some pgnCorrupt)
      = .ok (replayMoves BoardState.initial pgnCorrupt.moves) ∧
    (replayMoves BoardState.initial pgnCorrupt.moves).board.moveStack
      = [⟨12, 28, none⟩] := by
  refine ⟨by decide, rfl, by decide⟩

/-- C9 (amended): `from_pgn` replays the record one move at a time through
validated `make_move` application, but a move that is illegal when its
turn comes is silently skipped (its success flag is ignored) and replay
continues; only an unreadable record raises.  Hence loading never fails on
a readable record: the result is the state whose applied moves form a
sublist of the record, equal to the whole record exactly when the record
is well-formed. -/
theorem from_pgn_silent_skip (g : PgnGame) :
    BoardState.from_pgn none = .error "Invalid PGN string provided." ∧
    BoardState.from_pgn (some g)
      = .ok (replayMoves BoardState.initial g.moves) ∧
    (∃ applied,
      (replayMoves BoardState.initial g.moves).board.moveStack = applied ∧
      applied.Sublist g.moves) ∧
    (g.wellFormed = true →
      (replayMoves BoardState.initial g.moves).board.moveStack = g.moves) := by
  refine ⟨rfl, rfl, ?_, ?_⟩
  · obtain ⟨applied, heq, hsub⟩ := replayMoves_sublist g.moves BoardState.initial
    exact ⟨applied, by simpa [BoardState.initial, Board.moveStack] using heq, hsub⟩
  · intro hwf
    have h := replayMoves_moveStack g.moves BoardState.initial hwf
    simpa [BoardState.initial, Board.moveStack] using h

/-- Witness for C9 at a concrete input: the corrupt record loads without
failure and its applied moves form a sublist of the record. -/
theorem from_pgn_silent_skip_witness :
    BoardState.from_pgn (some pgnCorrupt)
      = .ok (replayMoves BoardState.initial pgnCorrupt.moves) ∧
    (∃ applied,
      (replayMoves BoardState.initial pgnCorrupt.moves).board.moveStack
        = applied ∧
      applied.Sublist pgnCorrupt.moves) :=
  ⟨(from_pgn_silent_skip pgnCorrupt).2.1,
   (from_pgn_silent_skip pgnCorrupt).2.2.1⟩

end Chess
